import Mathlib

/-!
# gotop widgets: network, process and temperature samplers

A shallow embedding of `src/widgets/net.go`, `proc.go`, `proc_linux.go`,
`temp.go` and `temp_other.go`.

Conventions of the embedding

* `uint64` values are natural numbers; additions and subtractions are reduced
  modulo `2^64`, and `int(x)` is the two's-complement reading on a 64-bit
  platform.
* `int` values are integers. `float64` values are exact rationals, which covers
  every value that is a number; the section on `float64` with the IEEE special
  values repeats the record, the comparisons and `Sort` over numbers, `+Inf`,
  `-Inf` and NaN, for the order `Sort` leaves.
* Go strings are Lean strings; where the code slices by byte offset the text is
  a list of characters, one per byte (exact for ASCII listings).
* A run-time panic (slice bounds out of range) is the result `none`.
* Functions of other packages (`sort.Sort`, `strconv`, `fmt`, `utils`) are
  explicit arguments of the functions that call them.
-/

namespace Gotop

/-! ## Machine integers -/

/-- The modulus of `uint64` arithmetic. -/
def u64Mod : Nat := 2 ^ 64

/-- Go `a + b` on `uint64`. -/
def u64Add (a b : Nat) : Nat := (a + b) % u64Mod

/-- Go `a - b` on `uint64` (wraps around below zero). -/
def u64Sub (a b : Nat) : Nat := (a % u64Mod + (u64Mod - b % u64Mod)) % u64Mod

/-- Go `int(x)` for `x : uint64` on a 64-bit platform: the same 64 bits read
as a signed number. -/
def u64ToInt (x : Nat) : Int :=
  if x % u64Mod < 2 ^ 63 then ((x % u64Mod : Nat) : Int)
  else ((x % u64Mod : Nat) : Int) - ((u64Mod : Nat) : Int)

/-! ## net.go -/

/-- The fields of gopsutil `net.IOCountersStat` that `update` reads. -/
structure IOCountersStat where
  Name : String
  BytesSent : Nat
  BytesRecv : Nat
deriving DecidableEq, Repr

/-- One termui sparkline: its series and its two title strings. -/
structure Sparkline where
  Data : List Int
  Title1 : String
  Title2 : String
deriving DecidableEq, Repr

/-- Embeds `NetWidget`: `Lines0` and `Lines1` are `Lines[0]` (received) and
`Lines[1]` (sent) of the embedded `Sparklines`. -/
structure NetWidget where
  Title : String
  Lines0 : Sparkline
  Lines1 : Sparkline
  prevRecvTotal : Nat
  prevSentTotal : Nat
deriving DecidableEq, Repr

/-- The formatting collaborators of `NetWidget.update`: `utils.ConvertBytes`
and the `fmt.Sprintf` verb `%<width>.1f`. -/
structure NetFmt where
  ConvertBytes : Nat → ℚ × String
  sprintfF1 : Nat → ℚ → String

/-- Embeds `fmt.Sprintf("%<width>s", s)`: pad with blanks on the left. -/
def padLeft (width : Nat) (s : String) : String :=
  String.mk (List.replicate (width - s.length) ' ') ++ s

/-- The widget as `NewNetWidget` builds it before its first `update`. -/
def NetWidget.fresh : NetWidget :=
  { Title := " Network Usage "
    Lines0 := { Data := [], Title1 := "", Title2 := "" }
    Lines1 := { Data := [], Title1 := "", Title2 := "" }
    prevRecvTotal := 0
    prevSentTotal := 0 }

/-- The summing loop of `update` (lines 57-65): the pair
`(curRecvTotal, curSentTotal)`, skipping the interface `tun0`. -/
def sumTotals (interfaces : List IOCountersStat) : Nat × Nat :=
  interfaces.foldl
    (fun acc i =>
      if i.Name ≠ "tun0" then (u64Add acc.1 i.BytesRecv, u64Add acc.2 i.BytesSent)
      else acc)
    (0, 0)

/-- The clamp of lines 73-82: `if int(recent) < 0 { recent = 0 }`. -/
def clampRecent (recent : Nat) : Nat :=
  if u64ToInt recent < 0 then 0 else recent

/-- The title pair rendered by the loop of lines 93-106 for one line. -/
def renderTitles (f : NetFmt) (label : String) (total recent : Nat) : String × String :=
  let rc := f.ConvertBytes recent
  let tc := f.ConvertBytes total
  (" Total " ++ label ++ ": " ++ f.sprintfF1 5 tc.1 ++ " " ++ tc.2,
   " " ++ label ++ "/s: " ++ f.sprintfF1 9 rc.1 ++ " " ++ padLeft 2 rc.2 ++ "/s")

/-- Embeds `NetWidget.update`, given what `psNet.IOCounters(true)` returned:
the interface list and whether the error was non-nil. -/
def NetWidget.update (f : NetFmt) (self : NetWidget)
    (interfaces : List IOCountersStat) (err : Bool) : NetWidget :=
  if err then self
  else
    let cur := sumTotals interfaces
    let curRecvTotal := cur.1
    let curSentTotal := cur.2
    let first := self.prevRecvTotal = 0
    let recvRecent := if first then 0 else clampRecent (u64Sub curRecvTotal self.prevRecvTotal)
    let sentRecent := if first then 0 else clampRecent (u64Sub curSentTotal self.prevSentTotal)
    let data0 := if first then self.Lines0.Data else self.Lines0.Data ++ [u64ToInt recvRecent]
    let data1 := if first then self.Lines1.Data else self.Lines1.Data ++ [u64ToInt sentRecent]
    let t0 := renderTitles f "RX" curRecvTotal recvRecent
    let t1 := renderTitles f "Tx" curSentTotal sentRecent
    { self with
      Lines0 := { Data := data0, Title1 := t0.1, Title2 := t0.2 }
      Lines1 := { Data := data1, Title1 := t1.1, Title2 := t1.2 }
      prevRecvTotal := curRecvTotal
      prevSentTotal := curSentTotal }

/-- One sample handed to `update`: the interface list and the error flag. -/
abbrev NetSample := List IOCountersStat × Bool

/-- A sequence of updates, oldest first. -/
def NetWidget.run (f : NetFmt) (self : NetWidget) (samples : List NetSample) : NetWidget :=
  samples.foldl (fun w s => NetWidget.update f w s.1 s.2) self

/-- Embeds `NewNetWidget`: the constructor runs `update` once itself. -/
def NewNetWidget (f : NetFmt) (first : NetSample) : NetWidget :=
  NetWidget.update f NetWidget.fresh first.1 first.2

/-! ## net.go: worked inputs -/

/-- A plain formatting collaborator for worked examples. -/
def NetFmt.plain : NetFmt :=
  { ConvertBytes := fun n => ((n : ℚ), "B")
    sprintfF1 := fun _ _ => "" }

/-- An interface named `eth0` with the given received and sent counters. -/
def eth0 (recv sent : Nat) : IOCountersStat :=
  { Name := "eth0", BytesSent := sent, BytesRecv := recv }

/-! ## proc.go -/

/-- The sort-direction marker appended to a header cell. -/
def DOWN : String := "▼"

/-- A process record; in a grouped record `Pid` holds the member count. -/
structure Proc where
  Pid : Int
  CommandName : String
  FullCommand : String
  Cpu : ℚ
  Mem : ℚ
deriving DecidableEq, Repr

/-- Embeds `ProcWidget` with the fields of the embedded table that the widget code
reads or writes. -/
structure ProcWidget where
  Title : String
  Header : List String
  Rows : List (List String)
  UniqueCol : Int
  SelectedRow : Int
  SelectedItem : String
  TopRow : Int
  cpuCount : ℚ
  sortMethod : String
  groupedProcs : List Proc
  ungroupedProcs : List Proc
  showGroupedProcs : Bool
deriving DecidableEq, Repr

/-- Embeds `SortProcsByCpu.Less` on the two records at the compared positions,
for values that are numbers (`IEEE.SortProcsByCpu.Less` has NaN and the
infinities too). -/
def SortProcsByCpu.Less (a b : Proc) : Bool := decide (a.Cpu < b.Cpu)

/-- Embeds `SortProcsByPid.Less` on the two records at the compared positions. -/
def SortProcsByPid.Less (a b : Proc) : Bool := decide (a.Pid < b.Pid)

/-- Embeds `SortProcsByMem.Less` on the two records at the compared positions,
for values that are numbers (`IEEE.SortProcsByMem.Less` has NaN and the
infinities too). -/
def SortProcsByMem.Less (a b : Proc) : Bool := decide (a.Mem < b.Mem)

/-- Embeds `sort.Reverse`: the wrapped `Less(i, j)` is the inner `Less(j, i)`. -/
def sortReverse {α : Type} (less : α → α → Bool) : α → α → Bool :=
  fun a b => less b a

/-- The shape of `sort.Sort` as the widget uses it: a comparison and a slice
in, the rearranged slice out. -/
abbrev SortFn := (Proc → Proc → Bool) → List Proc → List Proc

/-- Embeds `strconv.Itoa`. -/
def Itoa (n : Int) : String := toString n

/-- Embeds `FieldsToStrings`; `FormatFloat x` stands for
`strconv.FormatFloat(x, 'f', 1, 64)`. -/
def FieldsToStrings (FormatFloat : ℚ → String) (processes : List Proc) (grouped : Bool) :
    List (List String) :=
  processes.map (fun process =>
    [ Itoa process.Pid,
      if grouped then process.CommandName else process.FullCommand,
      padLeft 4 (FormatFloat process.Cpu),
      padLeft 4 (FormatFloat process.Mem) ])

/-- Embeds `Header[i] += s`. -/
def headerAppend (header : List String) (i : Nat) (s : String) : List String :=
  header.set i (header.getD i "" ++ s)

/-- The list `ProcWidget.Sort` works on (`*processes`). -/
def ProcWidget.active (self : ProcWidget) : List Proc :=
  if self.showGroupedProcs then self.groupedProcs else self.ungroupedProcs

/-- Embeds `ProcWidget.Sort`; `sortSort` is `sort.Sort`. -/
def ProcWidget.Sort (sortSort : SortFn) (FormatFloat : ℚ → String) (self : ProcWidget) :
    ProcWidget :=
  let header0 : List String := ["Count", "Command", "CPU%", "Mem%"]
  let header1 := if !self.showGroupedProcs then header0.set 0 "PID" else header0
  let processes := self.active
  let sorted : List Proc × List String :=
    if self.sortMethod = "c" then
      (sortSort (sortReverse SortProcsByCpu.Less) processes, headerAppend header1 2 DOWN)
    else if self.sortMethod = "p" then
      (if self.showGroupedProcs then sortSort (sortReverse SortProcsByPid.Less) processes
       else sortSort SortProcsByPid.Less processes,
       headerAppend header1 0 DOWN)
    else if self.sortMethod = "m" then
      (sortSort (sortReverse SortProcsByMem.Less) processes, headerAppend header1 3 DOWN)
    else (processes, header1)
  { self with
    Header := sorted.2
    groupedProcs := if self.showGroupedProcs then sorted.1 else self.groupedProcs
    ungroupedProcs := if self.showGroupedProcs then self.ungroupedProcs else sorted.1
    Rows := FieldsToStrings FormatFloat sorted.1 self.showGroupedProcs }

/-- Lookup in a Go `map[string]V`, kept as an association list with one entry
per key. -/
def mapGet {β : Type} : List (String × β) → String → Option β
  | [], _ => none
  | (k, v) :: rest, key => if k = key then some v else mapGet rest key

/-- Assignment `m[key] = v`: replaces the entry of `key`, or adds one. -/
def mapSet {β : Type} : List (String × β) → String → β → List (String × β)
  | [], key, v => [(key, v)]
  | (k, w) :: rest, key, v =>
    if k = key then (k, v) :: rest else (k, w) :: mapSet rest key v

/-- One iteration of the first loop of `GroupProcs` (lines 142-161). -/
def GroupProcs.step (groupedProcs : List (String × Proc)) (proc : Proc) :
    List (String × Proc) :=
  match mapGet groupedProcs proc.CommandName with
  | some val =>
    mapSet groupedProcs proc.CommandName
      { Pid := val.Pid + 1, CommandName := val.CommandName, FullCommand := "",
        Cpu := val.Cpu + proc.Cpu, Mem := val.Mem + proc.Mem }
  | none =>
    mapSet groupedProcs proc.CommandName
      { Pid := 1, CommandName := proc.CommandName, FullCommand := "",
        Cpu := proc.Cpu, Mem := proc.Mem }

/-- The map `groupedProcs` after the first loop of `GroupProcs`. -/
def GroupProcs.table (procs : List Proc) : List (String × Proc) :=
  procs.foldl GroupProcs.step []

/-- Embeds `GroupProcs` with the map read out in first-seen order. Go iterates a map
in an unspecified order: see `GroupProcs.Returns` for the other orders. -/
def GroupProcs (procs : List Proc) : List Proc :=
  (GroupProcs.table procs).map Prod.snd

/-- The slices `GroupProcs procs` may return: the values of the map in any
iteration order. -/
def GroupProcs.Returns (procs : List Proc) (groupList : List Proc) : Prop :=
  groupList.Perm (GroupProcs procs)

instance (procs groupList : List Proc) : Decidable (GroupProcs.Returns procs groupList) := by
  unfold GroupProcs.Returns
  infer_instance

/-! ## proc.go: the grouped record as the specification words it -/

/-- The input records that carry the command name `name`, in input order. -/
def groupOf (procs : List Proc) (name : String) : List Proc :=
  procs.filter (fun p => p.CommandName = name)

/-- The grouped record the specification describes for `name`: the member
count, the name, an empty full command and the sums of Cpu and Mem over the
members. -/
def groupRecord (procs : List Proc) (name : String) : Proc :=
  { Pid := ((groupOf procs name).length : Int)
    CommandName := name
    FullCommand := ""
    Cpu := ((groupOf procs name).map (fun p => p.Cpu)).sum
    Mem := ((groupOf procs name).map (fun p => p.Mem)).sum }

/-! ## sort.Sort

`sort.Sort` belongs to the Go standard library. The widget code is embedded
over any function with the documented contract of `sort.Sort` (the result is
a rearrangement of the slice, in ascending order of `Less`; stability is not
promised in any release). For worked inputs, `quickSortSmall` is the branch the
library's `quickSort` (Go 1.18 and earlier) takes for a slice of at most 12
elements: a shell pass with gap 6, which only acts on slices of 7 or more
elements, followed by `insertionSort`. Later releases sort a slice of at most
12 elements by `insertionSort` alone. -/

/-- What `sort.Sort` needs of `Less`: a strict weak order. -/
def StrictWeak {α : Type} (less : α → α → Bool) : Prop :=
  (∀ a b, less a b = true → less b a = false) ∧
  (∀ a b c, less a c = true → less a b = true ∨ less b c = true)

/-- The documented contract of `sort.Sort`: for a strict weak order `Less` the
result is a permutation of the slice with no element `Less` than an earlier
one. -/
def SortContract (sortSort : SortFn) : Prop :=
  ∀ (less : Proc → Proc → Bool) (data : List Proc), StrictWeak less →
    (sortSort less data).Perm data ∧
    (sortSort less data).Pairwise (fun a b => less b a = false)

/-- Embeds `data.Less(i, j)` on a slice of elements compared by `less`. -/
def lessAt {α : Type} (less : α → α → Bool) (data : List α) (i j : Nat) : Bool :=
  match data[i]?, data[j]? with
  | some x, some y => less x y
  | _, _ => false

/-- Embeds `data.Swap(i, j)`. -/
def swapAt {α : Type} (data : List α) (i j : Nat) : List α :=
  match data[i]?, data[j]? with
  | some x, some y => (data.set i y).set j x
  | _, _ => data

/-- The inner loop of the library's `insertionSort`:
`for j := i; j > a && data.Less(j, j-1); j-- { data.Swap(j, j-1) }`. -/
def insertionSort.inner {α : Type} (less : α → α → Bool) (a : Nat) :
    Nat → List α → List α
  | 0, data => data
  | j + 1, data =>
    if a < j + 1 ∧ lessAt less data (j + 1) j = true then
      insertionSort.inner less a j (swapAt data (j + 1) j)
    else data

/-- The library's `insertionSort(data, a, b)`:
`for i := a + 1; i < b; i++ { inner loop }`. -/
def insertionSort {α : Type} (less : α → α → Bool) (data : List α) (a b : Nat) : List α :=
  (List.range' (a + 1) (b - (a + 1))).foldl (fun d i => insertionSort.inner less a i d) data

/-- The shell pass with gap 6 of the library's `quickSort`:
`for i := a + 6; i < b; i++ { if data.Less(i, i-6) { data.Swap(i, i-6) } }`. -/
def shellPass {α : Type} (less : α → α → Bool) (data : List α) (a b : Nat) : List α :=
  (List.range' (a + 6) (b - (a + 6))).foldl
    (fun d i => if lessAt less d i (i - 6) = true then swapAt d i (i - 6) else d) data

/-- The branch of the library's `quickSort` for `b - a <= 12`:
`if b-a > 1 { shell pass with gap 6; insertionSort(data, a, b) }`. -/
def quickSortSmall {α : Type} (less : α → α → Bool) (data : List α) (a b : Nat) : List α :=
  if b - a > 1 then insertionSort less (shellPass less data a b) a b else data

/-- Embeds `sort.Sort` through the small-slice branch: `quickSort(data, 0, n, _)`. -/
def sortSmall {α : Type} (less : α → α → Bool) (data : List α) : List α :=
  quickSortSmall less data 0 data.length

/-! ## proc.go: specification-side notions and worked inputs -/

/-- Whether two records tie under the sort key of the widget. -/
def ProcWidget.sameKey (self : ProcWidget) (a b : Proc) : Bool :=
  if self.sortMethod = "c" then decide (a.Cpu = b.Cpu)
  else if self.sortMethod = "p" then decide (a.Pid = b.Pid)
  else if self.sortMethod = "m" then decide (a.Mem = b.Mem)
  else true

/-- The widget as `NewProcWidget` builds it before its first `update`. -/
def ProcWidget.fresh (cpuCount : ℚ) : ProcWidget :=
  { Title := " Processes "
    Header := []
    Rows := []
    UniqueCol := 1
    SelectedRow := 0
    SelectedItem := ""
    TopRow := 0
    cpuCount := cpuCount
    sortMethod := "c"
    groupedProcs := []
    ungroupedProcs := []
    showGroupedProcs := true }

/-- A stand-in for `strconv.FormatFloat` in worked examples. -/
def plainFloat : ℚ → String := fun _ => ""

/-- A record with the given PID, CPU and Mem and fixed command texts. -/
def procOf (pid : Int) (cpu mem : ℚ) : Proc :=
  { Pid := pid, CommandName := "cmd", FullCommand := "cmd --run", Cpu := cpu, Mem := mem }

/-- Seven ungrouped records to be sorted by CPU; the first two tie at 1.0. -/
def tiedInput : ProcWidget :=
  { ProcWidget.fresh 1 with
    showGroupedProcs := false
    UniqueCol := 0
    ungroupedProcs :=
      [procOf 100 1 0, procOf 101 1 0, procOf 102 5 0, procOf 103 4 0,
       procOf 104 3 0, procOf 105 2 0, procOf 106 9 0] }

/-- Three ungrouped records to be sorted by CPU; the first two tie at 1.0. -/
def shortTiedInput : ProcWidget :=
  { ProcWidget.fresh 1 with
    showGroupedProcs := false
    UniqueCol := 0
    ungroupedProcs := [procOf 100 1 0, procOf 101 1 0, procOf 102 5 0] }

/-- The three records of the grouping scenario. -/
def scenarioProcs : List Proc :=
  [ { Pid := 11, CommandName := "a", FullCommand := "a -x", Cpu := 2, Mem := 1 },
    { Pid := 12, CommandName := "a", FullCommand := "a -y", Cpu := 3, Mem := 1 },
    { Pid := 13, CommandName := "b", FullCommand := "b", Cpu := 1, Mem := 4 } ]

/-- The grouped record of command `a` in the scenario. -/
def scenarioA : Proc :=
  { Pid := 2, CommandName := "a", FullCommand := "", Cpu := 5, Mem := 2 }

/-- The grouped record of command `b` in the scenario. -/
def scenarioB : Proc :=
  { Pid := 1, CommandName := "b", FullCommand := "", Cpu := 1, Mem := 4 }

/-- The grouped records of the scenario as the map may hand them over (b
first), in the widget state `NewProcWidget` starts from (grouped view, sorted
by CPU). -/
def scenarioWidget : ProcWidget :=
  { ProcWidget.fresh 1 with groupedProcs := [scenarioB, scenarioA] }

/-! ## proc_linux.go -/

/-- What a `strconv` conversion returns: a value with a nil error, a syntax
error (the returned value is 0), or a range error (with the clamped value). -/
inductive NumResult (α : Type) where
  | ok (v : α)
  | errSyntax
  | errRange (v : α)
deriving DecidableEq, Repr

/-- The value a `strconv` conversion hands back next to its error. -/
def NumResult.value {α : Type} [Zero α] : NumResult α → α
  | NumResult.ok v => v
  | NumResult.errSyntax => 0
  | NumResult.errRange v => v

/-- The two `strconv` functions `GetProcesses` calls:
`Atoi` and `ParseFloat(·, 64)`. -/
structure Strconv where
  Atoi : List Char → NumResult Int
  ParseFloat : List Char → NumResult ℚ

/-- Embeds `unicode.IsSpace`. -/
def isSpace (c : Char) : Bool :=
  let n := c.toNat
  (9 ≤ n && n ≤ 13) || n == 32 || n == 133 || n == 160 || n == 5760 ||
    (8192 ≤ n && n ≤ 8202) || n == 8232 || n == 8233 || n == 8239 || n == 8287 ||
    n == 12288

/-- Embeds `strings.TrimSpace`. -/
def TrimSpace (s : List Char) : List Char :=
  ((s.dropWhile isSpace).reverse.dropWhile isSpace).reverse

/-- Embeds `strings.TrimSuffix(s, "\n")`. -/
def TrimSuffixNewline (s : List Char) : List Char :=
  if s.getLast? = some '\n' then s.dropLast else s

/-- Embeds `strings.Split(s, "\n")`: one more piece than there are newlines. -/
def SplitNewline : List Char → List (List Char)
  | [] => [[]]
  | c :: cs =>
    if c = '\n' then [] :: SplitNewline cs
    else
      match SplitNewline cs with
      | [] => [[c]]
      | piece :: pieces => (c :: piece) :: pieces

/-- Go `s[lo:hi]`; `none` is the slice-bounds panic. -/
def slice (s : List Char) (lo hi : Nat) : Option (List Char) :=
  if lo ≤ hi ∧ hi ≤ s.length then some ((s.take hi).drop lo) else none

/-- Go `s[lo:]`; `none` is the slice-bounds panic. -/
def sliceFrom (s : List Char) (lo : Nat) : Option (List Char) :=
  if lo ≤ s.length then some (s.drop lo) else none

/-- The body of the parsing loop of `GetProcesses` (lines 40-58) for one
line, in the order the source evaluates it. -/
def parseLine (sc : Strconv) (line : List Char) : Option Proc := do
  let pidText ← slice line 0 10
  let pid := (sc.Atoi (TrimSpace pidText)).value
  let cpuText ← slice line 63 68
  let cpu := (sc.ParseFloat (TrimSpace cpuText)).value
  let memText ← slice line 69 74
  let mem := (sc.ParseFloat (TrimSpace memText)).value
  let commandName ← slice line 11 61
  let fullCommand ← sliceFrom line 74
  pure { Pid := pid, CommandName := String.mk (TrimSpace commandName),
         FullCommand := String.mk fullCommand, Cpu := cpu, Mem := mem }

/-- The lines the loop runs over (line 36):
`strings.Split(strings.TrimSuffix(output, "\n"), "\n")[1:]`. -/
def processStrArr (output : List Char) : List (List Char) :=
  (SplitNewline (TrimSuffixNewline output)).tail

/-- The parsing loop of `GetProcesses` (lines 38-60); `none` when an iteration
panics. -/
def parseLines (sc : Strconv) : List (List Char) → Option (List Proc)
  | [] => some []
  | line :: rest => do
    let process ← parseLine sc line
    let processes ← parseLines sc rest
    pure (process :: processes)

/-- Embeds `GetProcesses`, given the output and the error of the `ps` command:
`none` is a panic, `some none` the returned error, `some (some ps)` the
returned slice. -/
def GetProcesses (sc : Strconv) (output : List Char) (err : Bool) :
    Option (Option (List Proc)) :=
  if err then some none
  else (parseLines sc (processStrArr output)).map some

/-! ## temp.go, temp_other.go -/

/-- The fields of gopsutil `host.TemperatureStat` that `update` reads. -/
structure TemperatureStat where
  SensorKey : String
  Temperature : ℚ
deriving DecidableEq, Repr

/-- Embeds `TempWidget`: the fields `update` reads or writes. `Fahrenheit` is the
flag `update` and `Draw` test. -/
structure TempWidget where
  Title : String
  Data : List (String × Int)
  TempThreshold : Int
  Fahrenheit : Bool
deriving DecidableEq, Repr

/-- Go `int(x)` for a `float64`: truncation toward zero. -/
def floatToInt (x : ℚ) : Int := Int.tdiv x.num x.den

/-- Embeds `strings.Index(s, sub)`; `none` is the result -1. -/
def stringsIndex (s sub : List Char) : Option Nat :=
  if sub.isPrefixOf s then some 0
  else
    match s with
    | [] => none
    | _ :: rest => (stringsIndex rest sub).map (· + 1)

/-- Embeds `strings.Contains(s, sub)`. -/
def stringsContains (s sub : List Char) : Bool :=
  (stringsIndex s sub).isSome

/-- The body of the loop of `TempWidget.update` (lines 21-29) for one sensor;
`none` is the panic of `SensorKey[:-1]`. -/
def TempWidget.step (CelsiusToFahrenheit : Int → Int) (self : TempWidget)
    (sensor : TemperatureStat) : Option TempWidget :=
  if stringsContains sensor.SensorKey.data "input".data && sensor.Temperature != 0 then
    match stringsIndex sensor.SensorKey.data "_input".data with
    | none => none
    | some idx =>
      let label := String.mk (sensor.SensorKey.data.take idx)
      if self.Fahrenheit then
        some { self with
          Data := mapSet self.Data label (CelsiusToFahrenheit (floatToInt sensor.Temperature)) }
      else
        some { self with Data := mapSet self.Data label (floatToInt sensor.Temperature) }
  else some self

/-- Embeds `TempWidget.update`, given what `psHost.SensorsTemperatures()` returned.
The error is only logged: the loop runs over `sensors` either way. -/
def TempWidget.update (CelsiusToFahrenheit : Int → Int) (self : TempWidget)
    (sensors : List TemperatureStat) (_err : Bool) : Option TempWidget :=
  sensors.foldlM (TempWidget.step CelsiusToFahrenheit) self

/-! ## temp_other.go: specification-side notions and worked inputs -/

/-- The test of line 21: the key contains "input" and the temperature is not
zero. -/
def retained (sensor : TemperatureStat) : Bool :=
  stringsContains sensor.SensorKey.data "input".data && sensor.Temperature != 0

/-- The label of line 23, `SensorKey[:strings.Index(SensorKey, "_input")]`,
when the index is not -1. -/
def labelOf (sensor : TemperatureStat) : Option String :=
  (stringsIndex sensor.SensorKey.data "_input".data).map
    (fun idx => String.mk (sensor.SensorKey.data.take idx))

/-- The live-input convention as the specification words it: the key ends in
"_input" (`strings.HasSuffix(key, "_input")`). -/
def endsInInput (key : String) : Bool :=
  "_input".data.isSuffixOf key.data

/-- The widget as `NewTempWidget` builds it before its first `update`. -/
def TempWidget.fresh (fahrenheit : Bool) (CelsiusToFahrenheit : Int → Int) : TempWidget :=
  { Title := " Temperatures "
    Data := []
    TempThreshold := if fahrenheit then CelsiusToFahrenheit 80 else 80
    Fahrenheit := fahrenheit }

/-- A stand-in for `utils.CelsiusToFahrenheit` in worked examples. -/
def plainC2F (c : Int) : Int := c * 9 / 5 + 32

/-- Three readings of one core: a live input, a threshold entry and a live
input that reports 0. -/
def coreReadings : List TemperatureStat :=
  [ { SensorKey := "coretemp_core0_input", Temperature := 45 },
    { SensorKey := "coretemp_core0_max", Temperature := 100 },
    { SensorKey := "coretemp_core1_input", Temperature := 0 } ]

/-! ## proc_linux.go: specification-side notions and worked inputs -/

/-- The record the parsing loop builds from a line that is long enough for
every column span: the spans of lines 40-55 without the bounds checks. -/
def lineRecord (sc : Strconv) (line : List Char) : Proc :=
  { Pid := (sc.Atoi (TrimSpace (line.take 10))).value
    CommandName := String.mk (TrimSpace ((line.take 61).drop 11))
    FullCommand := String.mk (line.drop 74)
    Cpu := (sc.ParseFloat (TrimSpace ((line.take 68).drop 63))).value
    Mem := (sc.ParseFloat (TrimSpace ((line.take 74).drop 69))).value }

/-- A listing as `ps` prints it: every line, the header included, is followed
by a newline. -/
def unlines : List (List Char) → List Char
  | [] => []
  | line :: rest => line ++ '\n' :: unlines rest

/-- Lines joined by single newlines, with none after the last. -/
def joinLines : List (List Char) → List Char
  | [] => []
  | [line] => line
  | line :: next :: rest => line ++ '\n' :: joinLines (next :: rest)

/-- Text right-aligned in a field of the given width. -/
def alignRight (width : Nat) (text : List Char) : List Char :=
  List.replicate (width - text.length) ' ' ++ text

/-- Text left-aligned in a field of the given width. -/
def alignLeft (width : Nat) (text : List Char) : List Char :=
  text ++ List.replicate (width - text.length) ' '

/-- One line of `ps -axo pid:10,comm:50,pcpu:5,pmem:5,args`: the PID
right-aligned in 10 characters, the command name left-aligned in 50, CPU and
Mem right-aligned in 5 each, every field followed by one blank, then the full
command line. -/
def psLine (pid comm cpu mem args : String) : List Char :=
  alignRight 10 pid.data ++ ' ' :: (alignLeft 50 comm.data ++ ' ' ::
    (alignRight 5 cpu.data ++ ' ' :: (alignRight 5 mem.data ++ ' ' :: args.data)))

/-- The digits of a decimal numeral as a number; `none` when the text is empty
or has another character. -/
def digitsValue (text : List Char) : Option Nat :=
  if text = [] ∨ ¬ text.all Char.isDigit then none
  else some (text.foldl (fun n c => 10 * n + (c.toNat - '0'.toNat)) 0)

/-- A stand-in for `strconv` in worked examples: plain decimal numerals only
(`Atoi` reads digits; `ParseFloat` reads digits, or digits, a point and
digits); any other text is a syntax error. -/
def decimalStrconv : Strconv :=
  { Atoi := fun text =>
      match digitsValue text with
      | some n => NumResult.ok (n : Int)
      | none => NumResult.errSyntax
    ParseFloat := fun text =>
      match text.dropWhile (· ≠ '.') with
      | [] =>
        match digitsValue text with
        | some n => NumResult.ok (n : ℚ)
        | none => NumResult.errSyntax
      | _ :: fracText =>
        match digitsValue (text.takeWhile (· ≠ '.')), digitsValue fracText with
        | some whole, some frac =>
          NumResult.ok ((whole : ℚ) + (frac : ℚ) / (10 : ℚ) ^ fracText.length)
        | _, _ => NumResult.errSyntax }

/-- A listing with a header and one line that is shorter than the spans. -/
def shortListing : List Char := "       PID COMMAND\n         1 init\n".data

/-- A line of the listing for PID 4242, command `stress`, CPU 12800 (128
cores kept busy; `ps` prints a CPU share above 99.9 without decimals) and
Mem 12.5. -/
def busyLine : List Char := psLine "4242" "stress" "12800" "12.5" "stress --cpu 128"

/-- A line of the listing for PID 1, command `init`, CPU 0.3, Mem 1.2. -/
def idleLine : List Char := psLine "1" "init" "0.3" "1.2" "/sbin/init splash"

/-- A line of the right length whose PID and CPU fields are not numeric. -/
def oddLine : List Char := psLine "?" "odd" "n/a" "2.5" "odd --flag"

/-! ## proc.go, proc_linux.go: the methods of the widget -/

/-- The cursor fields of the embedded table. -/
structure Cursor where
  SelectedRow : Int
  SelectedItem : String
  TopRow : Int
deriving DecidableEq, Repr

/-- The method `Top` of the embedded table (package termui, not among the
sources) is a parameter: it moves the cursor, so it may set `SelectedRow`,
`SelectedItem` and `TopRow` from the whole table, and it leaves every other
field alone. -/
abbrev TopFn := ProcWidget → Cursor

/-- Embeds `self.Top()` for a given table method `Top`. -/
def ProcWidget.Top (top : TopFn) (self : ProcWidget) : ProcWidget :=
  { self with
    SelectedRow := (top self).SelectedRow
    SelectedItem := (top self).SelectedItem
    TopRow := (top self).TopRow }

/-- Embeds `ProcWidget.ChangeSort`; `eID` is `e.ID` of the event. -/
def ProcWidget.ChangeSort (sortSort : SortFn) (FormatFloat : ℚ → String) (top : TopFn)
    (self : ProcWidget) (eID : String) : ProcWidget :=
  if self.sortMethod ≠ eID then
    ProcWidget.Sort sortSort FormatFloat (ProcWidget.Top top { self with sortMethod := eID })
  else self

/-- Embeds `ProcWidget.Tab`. -/
def ProcWidget.Tab (sortSort : SortFn) (FormatFloat : ℚ → String) (top : TopFn)
    (self : ProcWidget) : ProcWidget :=
  let flipped := { self with showGroupedProcs := !self.showGroupedProcs }
  let marked := { flipped with UniqueCol := if flipped.showGroupedProcs then 1 else 0 }
  ProcWidget.Top top (ProcWidget.Sort sortSort FormatFloat marked)

/-- Embeds `ProcWidget.update` (proc_linux.go), given the output and the error
of the `ps` command; `none` is a panic of the parsing loop. `iterate` is the
order in which the map of `GroupProcs` is read out. The call `self.SortProcs()`
of the last line is the method `Sort` of proc.go, the sorting method of the
widget ("called with every update"). A `cpuCount` of 0 divides to 0 here, the
values being rationals; what the `float64` division gives then (`+Inf` or NaN)
is `F64.quo`, and the loop over such values is `IEEE.ProcWidget.scale`. -/
def ProcWidget.update (sc : Strconv) (sortSort : SortFn) (FormatFloat : ℚ → String)
    (iterate : List Proc → List Proc) (self : ProcWidget) (output : List Char) (err : Bool) :
    Option ProcWidget :=
  match GetProcesses sc output err with
  | none => none
  | some none => some self
  | some (some parsed) =>
    let processes := parsed.map (fun p => { p with Cpu := p.Cpu / self.cpuCount })
    some (ProcWidget.Sort sortSort FormatFloat
      { self with
        ungroupedProcs := processes
        groupedProcs := iterate (GroupProcs processes) })

/-- Embeds `NewProcWidget`: the constructor runs `update` once itself. -/
def NewProcWidget (sc : Strconv) (sortSort : SortFn) (FormatFloat : ℚ → String)
    (iterate : List Proc → List Proc) (cpuCount : ℚ) (output : List Char) (err : Bool) :
    Option ProcWidget :=
  ProcWidget.update sc sortSort FormatFloat iterate (ProcWidget.fresh cpuCount) output err

/-- Go `s[i]` for an `int` index; `none` is the index-out-of-range panic. -/
def indexInt {α : Type} (s : List α) (i : Int) : Option α :=
  if 0 ≤ i then s[i.toNat]? else none

/-- Embeds `ProcWidget.Kill`: the state afterwards with the command name and
the argument handed to `exec.Command`; `none` is the panic of
`self.Rows[self.SelectedRow][self.UniqueCol]`. -/
def ProcWidget.Kill (self : ProcWidget) : Option (ProcWidget × String × String) :=
  let cleared := { self with SelectedItem := "" }
  let command := if cleared.UniqueCol = 1 then "pkill" else "kill"
  match indexInt cleared.Rows cleared.SelectedRow with
  | none => none
  | some row =>
    match indexInt row cleared.UniqueCol with
    | none => none
    | some arg => some (cleared, command, arg)

/-- The widget states that construction, `update`, `Sort`, `ChangeSort` and
`Tab` lead to. -/
inductive ProcWidget.Reachable (sc : Strconv) (sortSort : SortFn) (FormatFloat : ℚ → String)
    (top : TopFn) (iterate : List Proc → List Proc) : ProcWidget → Prop where
  | constructed (cpuCount : ℚ) :
      ProcWidget.Reachable sc sortSort FormatFloat top iterate (ProcWidget.fresh cpuCount)
  | afterUpdate (w w' : ProcWidget) (output : List Char) (err : Bool) :
      ProcWidget.Reachable sc sortSort FormatFloat top iterate w →
      ProcWidget.update sc sortSort FormatFloat iterate w output err = some w' →
      ProcWidget.Reachable sc sortSort FormatFloat top iterate w'
  | afterSort (w : ProcWidget) :
      ProcWidget.Reachable sc sortSort FormatFloat top iterate w →
      ProcWidget.Reachable sc sortSort FormatFloat top iterate
        (ProcWidget.Sort sortSort FormatFloat w)
  | afterChangeSort (w : ProcWidget) (eID : String) :
      ProcWidget.Reachable sc sortSort FormatFloat top iterate w →
      ProcWidget.Reachable sc sortSort FormatFloat top iterate
        (ProcWidget.ChangeSort sortSort FormatFloat top w eID)
  | afterTab (w : ProcWidget) :
      ProcWidget.Reachable sc sortSort FormatFloat top iterate w →
      ProcWidget.Reachable sc sortSort FormatFloat top iterate
        (ProcWidget.Tab sortSort FormatFloat top w)

/-- The published table of a widget that has just been sorted: the first
header cell reads "Count" in the grouped view and "PID" otherwise (with the
sort marker when that is the sort column), and `Rows` has one row of four
cells per record of the active list, in the same order, the first cell the
decimal `Pid`, the second the command name (grouped) or the full command. -/
def ProcWidget.Rendered (self : ProcWidget) : Prop :=
  (self.Header[0]? = some (if self.showGroupedProcs then "Count" else "PID") ∨
    self.Header[0]? = some ((if self.showGroupedProcs then "Count" else "PID") ++ DOWN)) ∧
  self.Rows.length = self.active.length ∧
  ∀ (i : Nat) (p : Proc), self.active[i]? = some p →
    ∃ cpu mem : String,
      self.Rows[i]? = some
        [Itoa p.Pid, if self.showGroupedProcs then p.CommandName else p.FullCommand, cpu, mem]

/-- What every operation of the widget keeps true: `UniqueCol` is 1 in the
grouped view and 0 otherwise, and `Rows` is the rendering of the active list. -/
def ProcWidget.Consistent (FormatFloat : ℚ → String) (self : ProcWidget) : Prop :=
  self.UniqueCol = (if self.showGroupedProcs then 1 else 0) ∧
  self.Rows = FieldsToStrings FormatFloat self.active self.showGroupedProcs

/-- A stand-in for the table method `Top` in worked examples: the cursor goes
to the first row. -/
def plainTop : TopFn := fun _ => { SelectedRow := 0, SelectedItem := "", TopRow := 0 }

/-- A listing of a header and the two regular lines `idleLine` and `oddLine`. -/
def smallListing : List Char := unlines ["HEADER".data, idleLine, oddLine]

/-- The widget after construction on `smallListing`, when construction does
not fail. -/
def smallWidget : ProcWidget :=
  (NewProcWidget decimalStrconv sortSmall plainFloat id 1 smallListing false).getD
    (ProcWidget.fresh 1)

/-- Three ungrouped records and three grouped records, sorted by PID/count. -/
def pidSortInput : ProcWidget :=
  { ProcWidget.fresh 1 with
    sortMethod := "p"
    ungroupedProcs := [procOf 30 1 0, procOf 10 5 0, procOf 20 3 0]
    groupedProcs := [procOf 1 1 0, procOf 4 5 0, procOf 2 3 0] }

/-! ## The ticker loops and the render gate -/

/-- The four operations of a `sync.RWMutex`. -/
inductive GateOp where
  | RLock
  | RUnlock
  | Lock
  | Unlock
deriving DecidableEq, Repr

/-- One statement of the body of a ticker loop: an operation on `renderLock`
or the call `self.update()`. -/
inductive TickStep where
  | gate (op : GateOp)
  | update
deriving DecidableEq, Repr

/-- The body of the ticker loop of `NewNetWidget` (net.go, lines 42-44). -/
def NetWidget.tick : List TickStep :=
  [TickStep.gate GateOp.RLock, TickStep.update, TickStep.gate GateOp.RUnlock]

/-- The body of the ticker loop of `NewProcWidget` (proc.go, lines 69-71). -/
def ProcWidget.tick : List TickStep :=
  [TickStep.gate GateOp.RLock, TickStep.update, TickStep.gate GateOp.RUnlock]

/-- The body of the ticker loop of `NewTempWidget` (temp.go, lines 50-52). -/
def TempWidget.tick : List TickStep :=
  [TickStep.gate GateOp.RLock, TickStep.update, TickStep.gate GateOp.RUnlock]

/-- The state of a `sync.RWMutex`: how many goroutines hold it for reading and
whether one holds it for writing. -/
structure RWMutex where
  readers : Nat
  writer : Bool
deriving DecidableEq, Repr

/-- The gate with no holder. -/
def RWMutex.free : RWMutex := { readers := 0, writer := false }

/-- The documented behaviour of `sync.RWMutex` ("the lock can be held by an
arbitrary number of readers or a single writer"): the state after an operation
that goes through, `none` when the operation cannot go through in this state
(the caller waits, or unlocks a lock that is not held). -/
def RWMutex.apply (g : RWMutex) : GateOp → Option RWMutex
  | GateOp.RLock => if g.writer then none else some { g with readers := g.readers + 1 }
  | GateOp.RUnlock => if g.readers = 0 then none else some { g with readers := g.readers - 1 }
  | GateOp.Lock => if g.writer ∨ g.readers ≠ 0 then none else some { g with writer := true }
  | GateOp.Unlock => if g.writer then some { g with writer := false } else none

/-- The state of the gate at the moment a tick reaches `self.update()`. -/
def gateAtUpdate : RWMutex → List TickStep → Option RWMutex
  | _, [] => none
  | g, TickStep.update :: _ => some g
  | g, TickStep.gate op :: rest => (g.apply op).bind (fun g' => gateAtUpdate g' rest)

/-- The state of the gate after a whole tick. -/
def gateAfter : RWMutex → List TickStep → Option RWMutex
  | g, [] => some g
  | g, TickStep.update :: rest => gateAfter g rest
  | g, TickStep.gate op :: rest => (g.apply op).bind (fun g' => gateAfter g' rest)

/-! ## net.go, temp_other.go: further worked inputs -/

/-- An interface with the given name and counters. -/
def iface (name : String) (recv sent : Nat) : IOCountersStat :=
  { Name := name, BytesSent := sent, BytesRecv := recv }

/-- The value `update` stores for a reading: `int(Temperature)`, converted
when the widget shows Fahrenheit. -/
def storedValue (CelsiusToFahrenheit : Int → Int) (fahrenheit : Bool)
    (sensor : TemperatureStat) : Int :=
  if fahrenheit then CelsiusToFahrenheit (floatToInt sensor.Temperature)
  else floatToInt sensor.Temperature

/-- The key without its last 6 characters: the label the comment of line 22
describes ("removes '_input' from the end of the sensor name"). -/
def trimmedKey (key : String) : String :=
  String.mk (key.data.take (key.data.length - 6))

/-- The widget as `update` leaves it in memory: after the whole loop, or as it
stands when an iteration panics (the map is written in place, so the entries
of the iterations before the panic are there). -/
def TempWidget.updateInPlace (CelsiusToFahrenheit : Int → Int) :
    TempWidget → List TemperatureStat → TempWidget
  | self, [] => self
  | self, sensor :: rest =>
    match TempWidget.step CelsiusToFahrenheit self sensor with
    | none => self
    | some next => TempWidget.updateInPlace CelsiusToFahrenheit next rest

/-- A widget that already shows two labels. -/
def warmWidget : TempWidget :=
  { TempWidget.fresh false plainC2F with Data := [("fan_hub", 30), ("coretemp_core0", 40)] }

/-- A reading whose key has "_input" twice. -/
def doubleInput : TemperatureStat :=
  { SensorKey := "nvme_input_sensor_input", Temperature := 40 }

/-! ## sort.Sort: the whole of the library's quickSort (Go 1.18 and earlier)

Loops are unrolled by a fuel argument that is never the reason a loop ends:
every loop below moves an index strictly toward a bound inside the slice, and
the fuel handed in is at least the length of the slice plus one. -/

/-- The loop `for ; i < limit && cond(i); i++ {}`: the index it stops at. -/
def scanUp (cond : Nat → Bool) : Nat → Nat → Nat → Nat
  | 0, i, _ => i
  | fuel + 1, i, limit =>
    if i < limit ∧ cond i = true then scanUp cond fuel (i + 1) limit else i

/-- The loop `for ; floor < i && cond(i-1); i-- {}`: the index it stops at. -/
def scanDown (cond : Nat → Bool) : Nat → Nat → Nat → Nat
  | 0, i, _ => i
  | fuel + 1, i, floor =>
    if floor < i ∧ cond (i - 1) = true then scanDown cond fuel (i - 1) floor else i

/-- The library's `medianOfThree(data, m1, m0, m2)`. -/
def medianOfThree {α : Type} (less : α → α → Bool) (data : List α) (m1 m0 m2 : Nat) :
    List α :=
  let d1 := if lessAt less data m1 m0 = true then swapAt data m1 m0 else data
  if lessAt less d1 m2 m1 = true then
    let d2 := swapAt d1 m2 m1
    if lessAt less d2 m1 m0 = true then swapAt d2 m1 m0 else d2
  else d1

/-- The partition loop of the library's `doPivot`: the slice and the indices
`b` and `c` when the loop breaks. -/
def doPivot.partition {α : Type} (less : α → α → Bool) (pivot : Nat) :
    Nat → List α → Nat → Nat → List α × Nat × Nat
  | 0, data, b, c => (data, b, c)
  | fuel + 1, data, b, c =>
    let b1 := scanUp (fun i => !lessAt less data pivot i) (data.length + 1) b c
    let c1 := scanDown (fun i => lessAt less data pivot i) (data.length + 1) c b1
    if b1 ≥ c1 then (data, b1, c1)
    else doPivot.partition less pivot fuel (swapAt data b1 (c1 - 1)) (b1 + 1) (c1 - 1)

/-- The loop of `doPivot` that protects against many duplicates: the slice
and the indices `a` and `b` when the loop breaks. -/
def doPivot.protect {α : Type} (less : α → α → Bool) (pivot : Nat) :
    Nat → List α → Nat → Nat → List α × Nat × Nat
  | 0, data, a, b => (data, a, b)
  | fuel + 1, data, a, b =>
    let b1 := scanDown (fun i => !lessAt less data i pivot) (data.length + 1) b a
    let a1 := scanUp (fun i => lessAt less data i pivot) (data.length + 1) a b1
    if a1 ≥ b1 then (data, a1, b1)
    else doPivot.protect less pivot fuel (swapAt data a1 (b1 - 1)) (a1 + 1) (b1 - 1)

/-- The block of `doPivot` that tests three points for equality to the pivot:
the slice, `b`, `c` and the number of duplicates found. -/
def doPivot.dups {α : Type} (less : α → α → Bool) (data : List α) (pivot m hi b c : Nat) :
    List α × Nat × Nat × Nat :=
  let s1 : List α × Nat × Nat :=
    if lessAt less data pivot (hi - 1) = false then (swapAt data c (hi - 1), c + 1, 1)
    else (data, c, 0)
  let s2 : Nat × Nat :=
    if lessAt less s1.1 (b - 1) pivot = false then (b - 1, s1.2.2 + 1) else (b, s1.2.2)
  if lessAt less s1.1 m pivot = false then
    (swapAt s1.1 m (s2.1 - 1), s2.1 - 1, s1.2.1, s2.2 + 1)
  else (s1.1, s2.1, s1.2.1, s2.2)

/-- The library's `doPivot(data, lo, hi)`: the slice afterwards with `midlo`
and `midhi`. -/
def doPivot {α : Type} (less : α → α → Bool) (data : List α) (lo hi : Nat) :
    List α × Nat × Nat :=
  let m := (lo + hi) / 2
  let d0 :=
    if hi - lo > 40 then
      let s := (hi - lo) / 8
      medianOfThree less
        (medianOfThree less (medianOfThree less data lo (lo + s) (lo + 2 * s)) m (m - s) (m + s))
        (hi - 1) (hi - 1 - s) (hi - 1 - 2 * s)
    else data
  let d1 := medianOfThree less d0 lo m (hi - 1)
  let pivot := lo
  let a := scanUp (fun i => lessAt less d1 i pivot) (d1.length + 1) (lo + 1) (hi - 1)
  let parted := doPivot.partition less pivot (d1.length + 1) d1 a (hi - 1)
  let d2 := parted.1
  let b := parted.2.1
  let c := parted.2.2
  let protect0 := decide (hi - c < 5)
  let tested : List α × Nat × Nat × Bool :=
    if protect0 = false ∧ hi - c < (hi - lo) / 4 then
      let t := doPivot.dups less d2 pivot m hi b c
      (t.1, t.2.1, t.2.2.1, decide (t.2.2.2 > 1))
    else (d2, b, c, protect0)
  let d3 := tested.1
  let b3 := tested.2.1
  let c3 := tested.2.2.1
  let guarded : List α × Nat :=
    if tested.2.2.2 = true then
      let r := doPivot.protect less pivot (d3.length + 1) d3 a b3
      (r.1, r.2.2)
    else (d3, b3)
  (swapAt guarded.1 pivot (guarded.2 - 1), guarded.2 - 1, c3)

/-- The loop of the library's `maxDepth`: `for i := n; i > 0; i >>= 1 { depth++ }`. -/
def maxDepth.loop : Nat → Nat → Nat
  | 0, _ => 0
  | fuel + 1, i => if i > 0 then maxDepth.loop fuel (i / 2) + 1 else 0

/-- The library's `maxDepth(n)`. -/
def maxDepth (n : Nat) : Nat := maxDepth.loop n n * 2

/-- A `float64` value: a number or one of the IEEE special values. -/
inductive F64 where
  | num (q : ℚ)
  | posInf
  | negInf
  | nan
deriving DecidableEq, Repr

/-- Go `x < y` on `float64`: false whenever a side is NaN. -/
def F64.lt : F64 → F64 → Bool
  | .num a, .num b => decide (a < b)
  | .num _, .posInf => true
  | .negInf, .num _ => true
  | .negInf, .posInf => true
  | _, _ => false

/-- Embeds `Proc` with `float64` fields that may hold the special values. -/
structure IEEE.Proc where
  Pid : Int
  CommandName : String
  FullCommand : String
  Cpu : F64
  Mem : F64
deriving DecidableEq, Repr

/-- Embeds `ProcWidget` over `IEEE.Proc`, with the same fields as `ProcWidget`. -/
structure IEEE.ProcWidget where
  Title : String
  Header : List String
  Rows : List (List String)
  UniqueCol : Int
  SelectedRow : Int
  SelectedItem : String
  TopRow : Int
  cpuCount : F64
  sortMethod : String
  groupedProcs : List IEEE.Proc
  ungroupedProcs : List IEEE.Proc
  showGroupedProcs : Bool
deriving DecidableEq, Repr

/-- Embeds `SortProcsByCpu.Less`: `self[i].Cpu < self[j].Cpu` on `float64`. -/
def IEEE.SortProcsByCpu.Less (a b : IEEE.Proc) : Bool := F64.lt a.Cpu b.Cpu

/-- Embeds `SortProcsByPid.Less`: `self[i].Pid < self[j].Pid` on `int`. -/
def IEEE.SortProcsByPid.Less (a b : IEEE.Proc) : Bool := decide (a.Pid < b.Pid)

/-- Embeds `SortProcsByMem.Less`: `self[i].Mem < self[j].Mem` on `float64`. -/
def IEEE.SortProcsByMem.Less (a b : IEEE.Proc) : Bool := F64.lt a.Mem b.Mem

/-- The type of `sort.Sort` on a slice of `IEEE.Proc` compared by `Less`. -/
abbrev IEEE.SortFn := (IEEE.Proc → IEEE.Proc → Bool) → List IEEE.Proc → List IEEE.Proc

/-- Embeds `FieldsToStrings`; `FormatFloat x` stands for
`strconv.FormatFloat(x, 'f', 1, 64)`. -/
def IEEE.FieldsToStrings (FormatFloat : F64 → String) (processes : List IEEE.Proc)
    (grouped : Bool) : List (List String) :=
  processes.map (fun process =>
    [ Itoa process.Pid,
      if grouped then process.CommandName else process.FullCommand,
      padLeft 4 (FormatFloat process.Cpu),
      padLeft 4 (FormatFloat process.Mem) ])

/-- The list `ProcWidget.Sort` works on (`*processes`). -/
def IEEE.ProcWidget.active (self : IEEE.ProcWidget) : List IEEE.Proc :=
  if self.showGroupedProcs then self.groupedProcs else self.ungroupedProcs

/-- Embeds `ProcWidget.Sort`; `sortSort` is `sort.Sort`. -/
def IEEE.ProcWidget.Sort (sortSort : IEEE.SortFn) (FormatFloat : F64 → String)
    (self : IEEE.ProcWidget) : IEEE.ProcWidget :=
  let header0 : List String := ["Count", "Command", "CPU%", "Mem%"]
  let header1 := if !self.showGroupedProcs then header0.set 0 "PID" else header0
  let processes := self.active
  let sorted : List IEEE.Proc × List String :=
    if self.sortMethod = "c" then
      (sortSort (sortReverse IEEE.SortProcsByCpu.Less) processes, headerAppend header1 2 DOWN)
    else if self.sortMethod = "p" then
      (if self.showGroupedProcs then sortSort (sortReverse IEEE.SortProcsByPid.Less) processes
       else sortSort IEEE.SortProcsByPid.Less processes,
       headerAppend header1 0 DOWN)
    else if self.sortMethod = "m" then
      (sortSort (sortReverse IEEE.SortProcsByMem.Less) processes, headerAppend header1 3 DOWN)
    else (processes, header1)
  { self with
    Header := sorted.2
    groupedProcs := if self.showGroupedProcs then sorted.1 else self.groupedProcs
    ungroupedProcs := if self.showGroupedProcs then self.ungroupedProcs else sorted.1
    Rows := IEEE.FieldsToStrings FormatFloat sorted.1 self.showGroupedProcs }

/-- What `sort.Sort` needs of `Less` on the elements of the slice it is given: a
strict weak order among them. -/
def StrictWeakOn {α : Type} (less : α → α → Bool) (data : List α) : Prop :=
  (∀ a ∈ data, ∀ b ∈ data, less a b = true → less b a = false) ∧
  (∀ a ∈ data, ∀ b ∈ data, ∀ c ∈ data,
    less a c = true → less a b = true ∨ less b c = true)

/-- The documented contract of `sort.Sort` on a slice of `IEEE.Proc`: when `Less`
is a strict weak order among the elements of the slice, the result is a
permutation of the slice with no element `Less` than an earlier one. -/
def IEEE.SortContract (sortSort : IEEE.SortFn) : Prop :=
  ∀ (less : IEEE.Proc → IEEE.Proc → Bool) (data : List IEEE.Proc),
    StrictWeakOn less data →
    (sortSort less data).Perm data ∧
    (sortSort less data).Pairwise (fun a b => less b a = false)

/-- The record of the exact model as a record of `float64` numbers. -/
def Proc.toIEEE (p : Proc) : IEEE.Proc :=
  { Pid := p.Pid, CommandName := p.CommandName, FullCommand := p.FullCommand,
    Cpu := F64.num p.Cpu, Mem := F64.num p.Mem }

/-- A stand-in for `strconv.FormatFloat` in worked examples. -/
def IEEE.plainFloat : F64 → String := fun _ => ""

/-- A record with the given PID, CPU and Mem and fixed command texts. -/
def IEEE.procOf (pid : Int) (cpu mem : F64) : IEEE.Proc :=
  { Pid := pid, CommandName := "cmd", FullCommand := "cmd --run", Cpu := cpu, Mem := mem }

theorem sumTotals_step_lt (acc : Nat × Nat) (i : IOCountersStat)
    (h : acc.1 < u64Mod ∧ acc.2 < u64Mod) :
    (if i.Name ≠ "tun0" then (u64Add acc.1 i.BytesRecv, u64Add acc.2 i.BytesSent)
      else acc).1 < u64Mod ∧
    (if i.Name ≠ "tun0" then (u64Add acc.1 i.BytesRecv, u64Add acc.2 i.BytesSent)
      else acc).2 < u64Mod := by
  have hpos : 0 < u64Mod := by unfold u64Mod; norm_num
  split
  · exact ⟨Nat.mod_lt _ hpos, Nat.mod_lt _ hpos⟩
  · exact h

theorem foldl_totals_lt (interfaces : List IOCountersStat) (acc : Nat × Nat)
    (h : acc.1 < u64Mod ∧ acc.2 < u64Mod) :
    (interfaces.foldl
      (fun acc i =>
        if i.Name ≠ "tun0" then (u64Add acc.1 i.BytesRecv, u64Add acc.2 i.BytesSent)
        else acc) acc).1 < u64Mod ∧
    (interfaces.foldl
      (fun acc i =>
        if i.Name ≠ "tun0" then (u64Add acc.1 i.BytesRecv, u64Add acc.2 i.BytesSent)
        else acc) acc).2 < u64Mod := by
  induction interfaces generalizing acc with
  | nil => simpa using h
  | cons i rest ih =>
    simp only [List.foldl_cons]
    exact ih _ (sumTotals_step_lt acc i h)

/-- Both totals computed by the summing loop fit in 64 bits. -/
theorem sumTotals_lt (interfaces : List IOCountersStat) :
    (sumTotals interfaces).1 < u64Mod ∧ (sumTotals interfaces).2 < u64Mod := by
  unfold sumTotals
  exact foldl_totals_lt interfaces (0, 0) (by unfold u64Mod; norm_num)

/-- The value appended after the clamp is never negative. -/
theorem u64ToInt_clampRecent_nonneg (x : Nat) : 0 ≤ u64ToInt (clampRecent x) := by
  unfold clampRecent
  split
  · unfold u64ToInt u64Mod; norm_num
  · omega

/-- Wrapped subtraction is plain subtraction when nothing wraps. -/
theorem u64Sub_of_le (a b : Nat) (ha : a < u64Mod) (hba : b ≤ a) : u64Sub a b = a - b := by
  unfold u64Sub u64Mod at *
  omega

/-- Wrapped subtraction below zero. -/
theorem u64Sub_of_lt (a b : Nat) (hb : b < u64Mod) (hab : a < b) :
    u64Sub a b = a + u64Mod - b := by
  unfold u64Sub u64Mod at *
  omega

/-- A difference below `2^63` survives the clamp and the conversion to `int`. -/
theorem u64ToInt_clampRecent_small (x : Nat) (hx : x < 2 ^ 63) :
    u64ToInt (clampRecent x) = (x : Int) := by
  have h1 : u64ToInt x = (x : Int) := by
    unfold u64ToInt u64Mod
    have : x % 2 ^ 64 = x := Nat.mod_eq_of_lt (by omega)
    rw [this, if_pos hx]
  unfold clampRecent
  rw [h1, if_neg (by omega), h1]

/-- A wrapped difference with the top bit set is clamped to 0. -/
theorem u64ToInt_clampRecent_large (x : Nat) (hlo : 2 ^ 63 ≤ x) (hhi : x < u64Mod) :
    u64ToInt (clampRecent x) = 0 := by
  have h1 : u64ToInt x < 0 := by
    unfold u64ToInt
    unfold u64Mod at *
    have : x % 2 ^ 64 = x := Nat.mod_eq_of_lt hhi
    rw [this, if_neg (by omega)]
    push_cast
    omega
  unfold clampRecent
  rw [if_pos h1]
  unfold u64ToInt u64Mod
  norm_num

/-- What one update does to the receive series. -/
theorem update_Lines0_Data (f : NetFmt) (w : NetWidget) (ifs : List IOCountersStat)
    (err : Bool) :
    (NetWidget.update f w ifs err).Lines0.Data =
      if err = true ∨ w.prevRecvTotal = 0 then w.Lines0.Data
      else w.Lines0.Data ++
        [u64ToInt (clampRecent (u64Sub (sumTotals ifs).1 w.prevRecvTotal))] := by
  unfold NetWidget.update
  by_cases he : err = true
  · simp [he]
  · by_cases hp : w.prevRecvTotal = 0
    · simp [he, hp]
    · simp [he, hp]

/-- What one update does to the send series. -/
theorem update_Lines1_Data (f : NetFmt) (w : NetWidget) (ifs : List IOCountersStat)
    (err : Bool) :
    (NetWidget.update f w ifs err).Lines1.Data =
      if err = true ∨ w.prevRecvTotal = 0 then w.Lines1.Data
      else w.Lines1.Data ++
        [u64ToInt (clampRecent (u64Sub (sumTotals ifs).2 w.prevSentTotal))] := by
  unfold NetWidget.update
  by_cases he : err = true
  · simp [he]
  · by_cases hp : w.prevRecvTotal = 0
    · simp [he, hp]
    · simp [he, hp]

/-- Non-negative series stay non-negative under any sequence of updates. -/
theorem run_nonneg (f : NetFmt) (samples : List NetSample) (w : NetWidget)
    (h0 : ∀ v ∈ w.Lines0.Data, 0 ≤ v) (h1 : ∀ v ∈ w.Lines1.Data, 0 ≤ v) :
    (∀ v ∈ (NetWidget.run f w samples).Lines0.Data, 0 ≤ v) ∧
    (∀ v ∈ (NetWidget.run f w samples).Lines1.Data, 0 ≤ v) := by
  induction samples generalizing w with
  | nil => exact ⟨h0, h1⟩
  | cons s rest ih =>
    unfold NetWidget.run
    simp only [List.foldl_cons]
    apply ih
    · intro v hv
      rw [update_Lines0_Data] at hv
      split at hv
      · exact h0 v hv
      · rcases List.mem_append.mp hv with h | h
        · exact h0 v h
        · rw [List.mem_singleton.mp h]
          exact u64ToInt_clampRecent_nonneg _
    · intro v hv
      rw [update_Lines1_Data] at hv
      split at hv
      · exact h1 v hv
      · rcases List.mem_append.mp hv with h | h
        · exact h1 v h
        · rw [List.mem_singleton.mp h]
          exact u64ToInt_clampRecent_nonneg _

/-- C1: starting from the freshly constructed widget, every value in the
receive series and in the send series after any sequence of updates is at
least 0; each single update leaves a series as it was or appends one value
that is at least 0 (so nothing appended is ever lost or negative); and the
first update appends nothing to either series. -/
theorem C1_published_deltas_nonneg (f : NetFmt) (samples : List NetSample) :
    (∀ v ∈ (NetWidget.run f NetWidget.fresh samples).Lines0.Data, 0 ≤ v) ∧
    (∀ v ∈ (NetWidget.run f NetWidget.fresh samples).Lines1.Data, 0 ≤ v) ∧
    (∀ (w : NetWidget) (s : NetSample),
      ((NetWidget.update f w s.1 s.2).Lines0.Data = w.Lines0.Data ∨
        ∃ v : Int, 0 ≤ v ∧ (NetWidget.update f w s.1 s.2).Lines0.Data = w.Lines0.Data ++ [v]) ∧
      ((NetWidget.update f w s.1 s.2).Lines1.Data = w.Lines1.Data ∨
        ∃ v : Int, 0 ≤ v ∧ (NetWidget.update f w s.1 s.2).Lines1.Data = w.Lines1.Data ++ [v])) ∧
    (∀ s : NetSample,
      (NetWidget.update f NetWidget.fresh s.1 s.2).Lines0.Data = [] ∧
      (NetWidget.update f NetWidget.fresh s.1 s.2).Lines1.Data = []) := by
  refine ⟨(run_nonneg f samples NetWidget.fresh (by simp [NetWidget.fresh])
      (by simp [NetWidget.fresh])).1,
    (run_nonneg f samples NetWidget.fresh (by simp [NetWidget.fresh])
      (by simp [NetWidget.fresh])).2, ?_, ?_⟩
  · intro w s
    rw [update_Lines0_Data, update_Lines1_Data]
    constructor
    · split
      · exact Or.inl rfl
      · exact Or.inr ⟨_, u64ToInt_clampRecent_nonneg _, rfl⟩
    · split
      · exact Or.inl rfl
      · exact Or.inr ⟨_, u64ToInt_clampRecent_nonneg _, rfl⟩
  · intro s
    rw [update_Lines0_Data, update_Lines1_Data]
    simp [NetWidget.fresh]

/-- C2 as stated fails in two ways. (a) After a first update whose receive
total is 0 the stored previous receive total is still 0, so the second update
(new totals 100 >= 0 and 900 >= 500) appends nothing to either series.
(b) From previous totals (1, 1), new totals (2^63 + 1, 1) append 0 to the
receive series, not the difference 2^63. -/
theorem C2_counterexample :
    ((NetWidget.update NetFmt.plain
        (NetWidget.update NetFmt.plain NetWidget.fresh [eth0 0 500] false)
        [eth0 100 900] false).Lines0.Data = [] ∧
     (NetWidget.update NetFmt.plain
        (NetWidget.update NetFmt.plain NetWidget.fresh [eth0 0 500] false)
        [eth0 100 900] false).Lines1.Data = []) ∧
    ((NetWidget.update NetFmt.plain NetWidget.fresh [eth0 1 1] false).prevRecvTotal = 1 ∧
     (sumTotals [eth0 (2 ^ 63 + 1) 1]).1 = 2 ^ 63 + 1 ∧
     (NetWidget.update NetFmt.plain
        (NetWidget.update NetFmt.plain NetWidget.fresh [eth0 1 1] false)
        [eth0 (2 ^ 63 + 1) 1] false).Lines0.Data = [0]) := by
  decide

/-- C2 (amended): for every widget state whose stored previous receive total
is not 0 and every successful update, each counter whose new total is at least
the stored previous total and exceeds it by less than 2^63 gets exactly one
value appended to its series, equal to new total minus previous total. -/
theorem C2_delta_is_difference (f : NetFmt) (w : NetWidget) (ifs : List IOCountersStat)
    (hprev : w.prevRecvTotal ≠ 0) :
    (w.prevRecvTotal ≤ (sumTotals ifs).1 →
      (sumTotals ifs).1 - w.prevRecvTotal < 2 ^ 63 →
      (NetWidget.update f w ifs false).Lines0.Data =
        w.Lines0.Data ++ [(((sumTotals ifs).1 - w.prevRecvTotal : Nat) : Int)]) ∧
    (w.prevSentTotal ≤ (sumTotals ifs).2 →
      (sumTotals ifs).2 - w.prevSentTotal < 2 ^ 63 →
      (NetWidget.update f w ifs false).Lines1.Data =
        w.Lines1.Data ++ [(((sumTotals ifs).2 - w.prevSentTotal : Nat) : Int)]) := by
  constructor
  · intro hle hsmall
    rw [update_Lines0_Data, if_neg (by simp [hprev]),
      u64Sub_of_le _ _ (sumTotals_lt ifs).1 hle, u64ToInt_clampRecent_small _ hsmall]
  · intro hle hsmall
    rw [update_Lines1_Data, if_neg (by simp [hprev]),
      u64Sub_of_le _ _ (sumTotals_lt ifs).2 hle, u64ToInt_clampRecent_small _ hsmall]

/-- C2 at totals (1000, 500) followed by (1500, 900): 500 and 400 are
appended. -/
theorem C2_delta_is_difference_witness :
    (NetWidget.update NetFmt.plain NetWidget.fresh [eth0 1000 500] false).prevRecvTotal ≠ 0 ∧
    (NetWidget.update NetFmt.plain
      (NetWidget.update NetFmt.plain NetWidget.fresh [eth0 1000 500] false)
      [eth0 1500 900] false).Lines0.Data = [] ++ [((1500 - 1000 : Nat) : Int)] ∧
    (NetWidget.update NetFmt.plain
      (NetWidget.update NetFmt.plain NetWidget.fresh [eth0 1000 500] false)
      [eth0 1500 900] false).Lines1.Data = [] ++ [((900 - 500 : Nat) : Int)] ∧
    ([] ++ [((1500 - 1000 : Nat) : Int)] = [(500 : Int)]) ∧
    ([] ++ [((900 - 500 : Nat) : Int)] = [(400 : Int)]) :=
  ⟨by decide,
   (C2_delta_is_difference NetFmt.plain
      (NetWidget.update NetFmt.plain NetWidget.fresh [eth0 1000 500] false)
      [eth0 1500 900] (by decide)).1 (by decide) (by decide),
   (C2_delta_is_difference NetFmt.plain
      (NetWidget.update NetFmt.plain NetWidget.fresh [eth0 1000 500] false)
      [eth0 1500 900] (by decide)).2 (by decide) (by decide),
   by decide, by decide⟩

/-- C3 as stated fails in two ways. (a) A regression of more than 2^63: from
the receive total 2^63 + 10 down to 5 the wrapped difference 2^63 - 5 has a
clear top bit and is appended as it is, not 0. (b) After a first update with
receive total 0, a regression of the sent total from 500 to 400 appends
nothing to the send series. -/
theorem C3_counterexample :
    ((NetWidget.update NetFmt.plain NetWidget.fresh
        [eth0 (2 ^ 63 + 10) 7] false).prevRecvTotal = 2 ^ 63 + 10 ∧
     (sumTotals [eth0 5 7]).1 = 5 ∧
     (NetWidget.update NetFmt.plain
        (NetWidget.update NetFmt.plain NetWidget.fresh [eth0 (2 ^ 63 + 10) 7] false)
        [eth0 5 7] false).Lines0.Data = [2 ^ 63 - 5]) ∧
    ((NetWidget.update NetFmt.plain NetWidget.fresh [eth0 0 500] false).prevSentTotal = 500 ∧
     (sumTotals [eth0 0 400]).2 = 400 ∧
     (NetWidget.update NetFmt.plain
        (NetWidget.update NetFmt.plain NetWidget.fresh [eth0 0 500] false)
        [eth0 0 400] false).Lines1.Data = []) := by
  decide

/-- C3 (amended): for every widget state whose stored previous receive total
is not 0 (stored totals being `uint64` values) and every successful update, a
counter whose new total is below its stored previous total by at most 2^63 gets
exactly 0 appended to its series; and after every successful update, from any
state whatever, the stored previous totals are the new totals, clamped or not. -/
theorem C3_regression_clamped (f : NetFmt) (w : NetWidget) (ifs : List IOCountersStat) :
    (w.prevRecvTotal ≠ 0 → w.prevRecvTotal < u64Mod →
      (sumTotals ifs).1 < w.prevRecvTotal →
      w.prevRecvTotal - (sumTotals ifs).1 ≤ 2 ^ 63 →
      (NetWidget.update f w ifs false).Lines0.Data = w.Lines0.Data ++ [0]) ∧
    (w.prevRecvTotal ≠ 0 → w.prevSentTotal < u64Mod →
      (sumTotals ifs).2 < w.prevSentTotal →
      w.prevSentTotal - (sumTotals ifs).2 ≤ 2 ^ 63 →
      (NetWidget.update f w ifs false).Lines1.Data = w.Lines1.Data ++ [0]) ∧
    (NetWidget.update f w ifs false).prevRecvTotal = (sumTotals ifs).1 ∧
    (NetWidget.update f w ifs false).prevSentTotal = (sumTotals ifs).2 := by
  refine ⟨?_, ?_, ?_, ?_⟩
  · intro hprev hr hlt hsize
    rw [update_Lines0_Data, if_neg (by simp [hprev]), u64Sub_of_lt _ _ hr hlt,
      u64ToInt_clampRecent_large]
    · unfold u64Mod at *; omega
    · unfold u64Mod at *; omega
  · intro hprev hs hlt hsize
    rw [update_Lines1_Data, if_neg (by simp [hprev]), u64Sub_of_lt _ _ hs hlt,
      u64ToInt_clampRecent_large]
    · unfold u64Mod at *; omega
    · unfold u64Mod at *; omega
  · simp [NetWidget.update]
  · simp [NetWidget.update]

/-- C3 at receive totals 1000, 400, 600: the second update appends 0 and
stores 400, the third appends 200. -/
theorem C3_regression_clamped_witness :
    (NetWidget.update NetFmt.plain NetWidget.fresh [eth0 1000 500] false).prevRecvTotal ≠ 0 ∧
    ((NetWidget.update NetFmt.plain
      (NetWidget.update NetFmt.plain NetWidget.fresh [eth0 1000 500] false)
      [eth0 400 500] false).Lines0.Data =
        (NetWidget.update NetFmt.plain NetWidget.fresh [eth0 1000 500] false).Lines0.Data
          ++ [0]) ∧
    ((NetWidget.update NetFmt.plain
      (NetWidget.update NetFmt.plain NetWidget.fresh [eth0 1000 500] false)
      [eth0 400 500] false).prevRecvTotal = (sumTotals [eth0 400 500]).1) ∧
    (sumTotals [eth0 400 500]).1 = 400 ∧
    (NetWidget.run NetFmt.plain NetWidget.fresh
      [([eth0 1000 500], false), ([eth0 400 500], false), ([eth0 600 500], false)]).Lines0.Data
        = [0, 200] :=
  ⟨by decide,
   (C3_regression_clamped NetFmt.plain
      (NetWidget.update NetFmt.plain NetWidget.fresh [eth0 1000 500] false)
      [eth0 400 500]).1 (by decide) (by decide) (by decide) (by decide),
   (C3_regression_clamped NetFmt.plain
      (NetWidget.update NetFmt.plain NetWidget.fresh [eth0 1000 500] false)
      [eth0 400 500]).2.2.1,
   by decide, by decide⟩

/-! ## proc.go: grouping -/

theorem mapGet_mapSet_same {β : Type} (m : List (String × β)) (k : String) (v : β) :
    mapGet (mapSet m k v) k = some v := by
  induction m with
  | nil => simp [mapSet, mapGet]
  | cons e rest ih =>
    obtain ⟨k', w⟩ := e
    by_cases h : k' = k
    · simp [mapSet, mapGet, h]
    · simp [mapSet, mapGet, h, ih]

theorem mapGet_mapSet_ne {β : Type} (m : List (String × β)) (k k' : String) (v : β)
    (h : k' ≠ k) : mapGet (mapSet m k v) k' = mapGet m k' := by
  induction m with
  | nil =>
    have : ¬ k = k' := fun e => h e.symm
    simp [mapSet, mapGet, this]
  | cons e rest ih =>
    obtain ⟨k0, w⟩ := e
    by_cases h0 : k0 = k
    · subst h0
      have : ¬ k0 = k' := fun e => h e.symm
      simp [mapSet, mapGet, this]
    · by_cases h1 : k0 = k'
      · subst h1
        simp [mapSet, mapGet, h0]
      · simp [mapSet, mapGet, h0, h1, ih]

theorem mapGet_eq_none_iff {β : Type} (m : List (String × β)) (k : String) :
    mapGet m k = none ↔ k ∉ m.map Prod.fst := by
  induction m with
  | nil => simp [mapGet]
  | cons e rest ih =>
    obtain ⟨k0, w⟩ := e
    by_cases h0 : k0 = k
    · simp [mapGet, h0]
    · have : ¬ k = k0 := fun e => h0 e.symm
      simp [mapGet, h0, ih, this]

theorem mapSet_keys {β : Type} (m : List (String × β)) (k : String) (v : β) :
    (mapSet m k v).map Prod.fst =
      if k ∈ m.map Prod.fst then m.map Prod.fst else m.map Prod.fst ++ [k] := by
  induction m with
  | nil => simp [mapSet]
  | cons e rest ih =>
    obtain ⟨k0, w⟩ := e
    by_cases h0 : k0 = k
    · simp [mapSet, h0]
    · have h1 : ¬ k = k0 := fun e => h0 e.symm
      simp only [mapSet, h0, if_false, List.map_cons, ih, List.mem_cons, h1, false_or]
      split <;> simp

theorem mapSet_keys_nodup {β : Type} (m : List (String × β)) (k : String) (v : β)
    (h : (m.map Prod.fst).Nodup) : ((mapSet m k v).map Prod.fst).Nodup := by
  rw [mapSet_keys]
  split
  · exact h
  · rename_i hk
    exact List.Nodup.append h (List.nodup_singleton k)
      (by
        intro a ha hb
        rw [List.mem_singleton] at hb
        exact hk (hb ▸ ha))

theorem mapGet_of_mem {β : Type} (m : List (String × β)) (k : String) (v : β)
    (hnd : (m.map Prod.fst).Nodup) (hmem : (k, v) ∈ m) : mapGet m k = some v := by
  induction m with
  | nil => cases hmem
  | cons e rest ih =>
    obtain ⟨k0, w⟩ := e
    rw [List.map_cons, List.nodup_cons] at hnd
    rcases List.mem_cons.mp hmem with h | h
    · cases h
      simp [mapGet]
    · have hk : k ∈ rest.map Prod.fst := List.mem_map.mpr ⟨(k, v), h, rfl⟩
      have h0 : ¬ k0 = k := fun e => hnd.1 (e ▸ hk)
      simp [mapGet, h0, ih hnd.2 h]

theorem mem_of_mapGet {β : Type} (m : List (String × β)) (k : String) (v : β)
    (h : mapGet m k = some v) : (k, v) ∈ m := by
  induction m with
  | nil => simp [mapGet] at h
  | cons e rest ih =>
    obtain ⟨k0, w⟩ := e
    by_cases h0 : k0 = k
    · simp [mapGet, h0] at h
      simp [h0, h]
    · simp [mapGet, h0] at h
      exact List.mem_cons_of_mem _ (ih h)

theorem table_snoc (procs : List Proc) (p : Proc) :
    GroupProcs.table (procs ++ [p]) = GroupProcs.step (GroupProcs.table procs) p := by
  simp [GroupProcs.table, List.foldl_append]

theorem step_keys_nodup (m : List (String × Proc)) (p : Proc)
    (h : (m.map Prod.fst).Nodup) : ((GroupProcs.step m p).map Prod.fst).Nodup := by
  unfold GroupProcs.step
  split <;> exact mapSet_keys_nodup _ _ _ h

theorem table_keys_nodup (procs : List Proc) :
    ((GroupProcs.table procs).map Prod.fst).Nodup := by
  induction procs using List.reverseRecOn with
  | nil => simp [GroupProcs.table]
  | append_singleton ps p ih =>
    rw [table_snoc]
    exact step_keys_nodup _ _ ih

theorem groupOf_snoc_same (ps : List Proc) (p : Proc) :
    groupOf (ps ++ [p]) p.CommandName = groupOf ps p.CommandName ++ [p] := by
  simp [groupOf, List.filter_append]

theorem groupOf_snoc_ne (ps : List Proc) (p : Proc) (k : String) (h : k ≠ p.CommandName) :
    groupOf (ps ++ [p]) k = groupOf ps k := by
  have : ¬ p.CommandName = k := fun e => h e.symm
  simp [groupOf, List.filter_append, this]

/-- The map built by the first loop of `GroupProcs` holds, for every command
name of the input, the record the specification describes, and nothing else. -/
theorem table_get (procs : List Proc) (k : String) :
    mapGet (GroupProcs.table procs) k =
      if groupOf procs k = [] then none else some (groupRecord procs k) := by
  induction procs using List.reverseRecOn with
  | nil => simp [GroupProcs.table, mapGet, groupOf]
  | append_singleton ps p ih =>
    rw [table_snoc]
    by_cases hk : k = p.CommandName
    · subst hk
      have hne : ¬ groupOf (ps ++ [p]) p.CommandName = [] := by
        rw [groupOf_snoc_same]; simp
      rw [if_neg hne]
      unfold GroupProcs.step
      by_cases he : groupOf ps p.CommandName = []
      · rw [ih, if_pos he]
        simp only [mapGet_mapSet_same]
        simp [groupRecord, groupOf_snoc_same, he]
      · rw [ih, if_neg he]
        simp only [mapGet_mapSet_same]
        simp [groupRecord, groupOf_snoc_same, List.sum_append]
    · have hrec : groupRecord (ps ++ [p]) k = groupRecord ps k := by
        simp [groupRecord, groupOf_snoc_ne ps p k hk]
      rw [groupOf_snoc_ne ps p k hk, hrec, ← ih]
      unfold GroupProcs.step
      split <;> exact mapGet_mapSet_ne _ _ _ _ hk

theorem groupOf_eq_nil_iff (procs : List Proc) (k : String) :
    groupOf procs k = [] ↔ k ∉ procs.map (fun p => p.CommandName) := by
  simp [groupOf, List.filter_eq_nil_iff]

/-- Every entry of the map is the specified record of its key. -/
theorem table_entry (procs : List Proc) (k : String) (g : Proc)
    (h : (k, g) ∈ GroupProcs.table procs) :
    groupOf procs k ≠ [] ∧ g = groupRecord procs k := by
  have hg := mapGet_of_mem _ _ _ (table_keys_nodup procs) h
  rw [table_get] at hg
  by_cases he : groupOf procs k = []
  · simp [he] at hg
  · simp [he] at hg
    exact ⟨he, hg.symm⟩

/-- The command names of the grouped records are the keys of the map. -/
theorem GroupProcs_names (procs : List Proc) :
    (GroupProcs procs).map (fun p => p.CommandName) =
      (GroupProcs.table procs).map Prod.fst := by
  unfold GroupProcs
  rw [List.map_map]
  apply List.map_congr_left
  intro e he
  obtain ⟨k, g⟩ := e
  have := (table_entry procs k g he).2
  simp [this, groupRecord]

theorem pidSum_mapSet_none (m : List (String × Proc)) (k : String) (v : Proc)
    (h : mapGet m k = none) :
    ((mapSet m k v).map (fun e => e.2.Pid)).sum = (m.map (fun e => e.2.Pid)).sum + v.Pid := by
  induction m with
  | nil => simp [mapSet]
  | cons e rest ih =>
    obtain ⟨k0, w⟩ := e
    by_cases h0 : k0 = k
    · simp [mapGet, h0] at h
    · simp [mapGet, h0] at h
      simp [mapSet, h0, ih h, add_assoc]

theorem pidSum_mapSet_some (m : List (String × Proc)) (k : String) (v old : Proc)
    (h : mapGet m k = some old) :
    ((mapSet m k v).map (fun e => e.2.Pid)).sum =
      (m.map (fun e => e.2.Pid)).sum - old.Pid + v.Pid := by
  induction m with
  | nil => simp [mapGet] at h
  | cons e rest ih =>
    obtain ⟨k0, w⟩ := e
    by_cases h0 : k0 = k
    · simp [mapGet, h0] at h
      subst h
      simp [mapSet, h0]
      omega
    · simp [mapGet, h0] at h
      simp [mapSet, h0, ih h]
      omega

theorem pidSum_step (m : List (String × Proc)) (p : Proc) :
    ((GroupProcs.step m p).map (fun e => e.2.Pid)).sum =
      (m.map (fun e => e.2.Pid)).sum + 1 := by
  unfold GroupProcs.step
  split
  · rename_i val hval
    rw [pidSum_mapSet_some _ _ _ _ hval]
    simp only
    omega
  · rename_i hval
    rw [pidSum_mapSet_none _ _ _ hval]

/-- The counts in the map add up to the number of input records. -/
theorem pidSum_table (procs : List Proc) :
    ((GroupProcs.table procs).map (fun e => e.2.Pid)).sum = (procs.length : Int) := by
  induction procs using List.reverseRecOn with
  | nil => simp [GroupProcs.table]
  | append_singleton ps p ih =>
    rw [table_snoc, pidSum_step, ih]
    simp

/-- C4: whatever order the map is iterated in, `GroupProcs` returns exactly
one record per distinct command name of the input (no name twice, the names
of the output are exactly the names of the input), the counts (`Pid` fields)
of the returned records add up to the length of the input, and the empty
input gives the empty output. -/
theorem C4_group_partition (procs groupList : List Proc)
    (h : GroupProcs.Returns procs groupList) :
    (groupList.map (fun g => g.CommandName)).Nodup ∧
    (∀ name : String,
      name ∈ groupList.map (fun g => g.CommandName) ↔
        name ∈ procs.map (fun p => p.CommandName)) ∧
    (groupList.map (fun g => g.Pid)).sum = (procs.length : Int) ∧
    (procs = [] → groupList = []) := by
  unfold GroupProcs.Returns at h
  refine ⟨?_, ?_, ?_, ?_⟩
  · rw [(h.map (fun g => g.CommandName)).nodup_iff, GroupProcs_names]
    exact table_keys_nodup procs
  · intro name
    rw [(h.map (fun g => g.CommandName)).mem_iff, GroupProcs_names]
    have h1 := mapGet_eq_none_iff (GroupProcs.table procs) name
    have h2 := table_get procs name
    have h3 := groupOf_eq_nil_iff procs name
    by_cases he : groupOf procs name = []
    · rw [if_pos he] at h2
      exact ⟨fun hin => absurd hin (h1.mp h2), fun hin => absurd hin (h3.mp he)⟩
    · rw [if_neg he] at h2
      constructor
      · intro _
        by_contra hc
        exact he (h3.mpr hc)
      · intro _
        by_contra hc
        rw [h1.mpr hc] at h2
        cases h2
  · rw [(h.map (fun g => g.Pid)).sum_eq]
    unfold GroupProcs
    rw [List.map_map]
    exact pidSum_table procs
  · intro hp
    subst hp
    exact List.Perm.eq_nil (by simpa [GroupProcs, GroupProcs.table] using h)

/-- C4 on the scenario, with the map read out in the order b, a. -/
theorem C4_group_partition_witness :
    GroupProcs.Returns scenarioProcs [scenarioB, scenarioA] ∧
    ([scenarioB, scenarioA].map (fun g => g.CommandName)).Nodup ∧
    ([scenarioB, scenarioA].map (fun g => g.Pid)).sum = (scenarioProcs.length : Int) :=
  ⟨by decide!,
   (C4_group_partition scenarioProcs [scenarioB, scenarioA] (by decide!)).1,
   (C4_group_partition scenarioProcs [scenarioB, scenarioA] (by decide!)).2.2.1⟩

/-! ## sort.Sort: the small-slice branch meets the contract -/

theorem set_getElem_perm {α : Type} (t : List α) (n : Nat) (y h : α)
    (hy : t[n]? = some y) : (y :: t.set n h).Perm (h :: t) := by
  induction t generalizing n with
  | nil => simp at hy
  | cons z t' ih =>
    cases n with
    | zero =>
      simp at hy
      subst hy
      simpa using List.Perm.swap h z t'
    | succ n' =>
      simp at hy
      simp only [List.set_cons_succ]
      exact ((List.Perm.swap z y _).trans ((ih n' hy).cons z)).trans (List.Perm.swap h z t')

theorem swapAt_perm {α : Type} (data : List α) (i j : Nat) : (swapAt data i j).Perm data := by
  induction data generalizing i j with
  | nil => simp [swapAt]
  | cons h t ih =>
    unfold swapAt
    cases i with
    | zero =>
      cases j with
      | zero => simp
      | succ j' =>
        cases hj : t[j']? with
        | none => simp [hj]
        | some y =>
          simp only [List.getElem?_cons_zero, List.getElem?_cons_succ, hj, List.set_cons_zero,
            List.set_cons_succ]
          exact set_getElem_perm t j' y h hj
    | succ i' =>
      cases j with
      | zero =>
        cases hi : t[i']? with
        | none => simp [hi]
        | some x =>
          simp only [List.getElem?_cons_zero, List.getElem?_cons_succ, hi, List.set_cons_zero,
            List.set_cons_succ]
          exact set_getElem_perm t i' x h hi
      | succ j' =>
        have := ih i' j'
        unfold swapAt at this
        cases hi : t[i']? with
        | none => simp [hi]
        | some x =>
          cases hj : t[j']? with
          | none => simp [hi, hj]
          | some y =>
            simp only [List.getElem?_cons_succ, hi, hj, List.set_cons_succ]
            simp only [hi, hj] at this
            exact this.cons h

theorem lessAt_adjacent {α : Type} (less : α → α → Bool) (L R : List α) (x y : α) :
    lessAt less (L ++ y :: x :: R) (L.length + 1) L.length = less x y := by
  unfold lessAt
  rw [List.getElem?_append_right (by omega), List.getElem?_append_right (by omega)]
  simp

theorem swapAt_adjacent {α : Type} (L R : List α) (x y : α) :
    swapAt (L ++ y :: x :: R) (L.length + 1) L.length = L ++ x :: y :: R := by
  unfold swapAt
  rw [List.getElem?_append_right (by omega), List.getElem?_append_right (by omega)]
  simp

/-- The inner loop of `insertionSort` puts the element after a sorted prefix
in its place within the prefix. -/
theorem inner_spec {α : Type} (less : α → α → Bool) (hsw : StrictWeak less) :
    ∀ (j : Nat) (L : List α) (x : α) (R : List α), L.length = j →
      L.Pairwise (fun a b => less b a = false) →
      ∃ L', insertionSort.inner less 0 j (L ++ x :: R) = L' ++ R ∧
        L'.Perm (L ++ [x]) ∧ L'.Pairwise (fun a b => less b a = false) ∧
        (∀ p : α → Bool, (∀ a b, less a b = true → ¬ (p a = true ∧ p b = true)) →
          L'.filter p = (L ++ [x]).filter p) := by
  intro j
  induction j with
  | zero =>
    intro L x R hlen _
    have : L = [] := List.length_eq_zero.mp hlen
    subst this
    exact ⟨[x], by simp [insertionSort.inner], List.Perm.refl _, List.pairwise_singleton _ _,
      fun _ _ => rfl⟩
  | succ j ih =>
    intro L x R hlen hsorted
    rcases List.eq_nil_or_concat L with hnil | ⟨L0, y, hL⟩
    · subst hnil
      simp at hlen
    · rw [List.concat_eq_append] at hL
      subst hL
      have hlen0 : L0.length = j := by simpa using hlen
      have hdata : (L0 ++ [y]) ++ x :: R = L0 ++ y :: x :: R := by simp
      rw [hdata]
      rw [List.pairwise_append] at hsorted
      obtain ⟨hs0, _, hcross⟩ := hsorted
      unfold insertionSort.inner
      rw [← hlen0, lessAt_adjacent, swapAt_adjacent]
      by_cases hxy : less x y = true
      · rw [if_pos ⟨by omega, hxy⟩]
        obtain ⟨L0', heq, hperm, hs', hst⟩ := ih L0 x (y :: R) hlen0 hs0
        rw [hlen0, heq]
        refine ⟨L0' ++ [y], by simp, ?_, ?_, ?_⟩
        · exact (hperm.append_right [y]).trans (by
            rw [List.append_assoc, List.append_assoc]
            exact List.Perm.append_left L0 (List.Perm.swap y x []))
        · rw [List.pairwise_append]
          refine ⟨hs', List.pairwise_singleton _ _, ?_⟩
          intro a ha b hb
          rw [List.mem_singleton] at hb
          subst hb
          rcases List.mem_append.mp (hperm.mem_iff.mp ha) with h | h
          · exact hcross a h b (List.mem_singleton.mpr rfl)
          · rw [List.mem_singleton] at h
            subst h
            exact hsw.1 _ _ hxy
        · intro p hp
          have hnot := hp x y hxy
          rw [List.filter_append, hst p hp]
          simp only [List.filter_append, List.append_assoc]
          congr 1
          cases hpx : p x with
          | false => simp [List.filter, hpx]
          | true =>
            have hpy : p y = false := by
              cases hpy : p y with
              | false => rfl
              | true => exact absurd ⟨hpx, hpy⟩ hnot
            simp [List.filter, hpx, hpy]
      · rw [if_neg (by intro h; exact hxy h.2)]
        have hxy' : less x y = false := by simpa using hxy
        refine ⟨L0 ++ [y] ++ [x], by simp, List.Perm.refl _, ?_, fun _ _ => rfl⟩
        rw [List.pairwise_append]
        refine ⟨?_, List.pairwise_singleton _ _, ?_⟩
        · rw [List.pairwise_append]
          exact ⟨hs0, List.pairwise_singleton _ _, hcross⟩
        · intro a ha b hb
          rw [List.mem_singleton] at hb
          subst hb
          rcases List.mem_append.mp ha with h | h
          · have hay := hcross a h y (List.mem_singleton.mpr rfl)
            cases hba : less b a with
            | false => rfl
            | true =>
              rcases hsw.2 b y a hba with h1 | h1
              · rw [hxy'] at h1; cases h1
              · rw [hay] at h1; cases h1
          · rw [List.mem_singleton] at h
            subst h
            exact hxy'

/-- The outer loop of `insertionSort`, started after a sorted prefix. -/
theorem insertionSort_loop {α : Type} (less : α → α → Bool) (hsw : StrictWeak less) :
    ∀ (S P : List α) (i : Nat), P.length = i →
      P.Pairwise (fun a b => less b a = false) →
      ((List.range' i S.length).foldl (fun d i => insertionSort.inner less 0 i d)
          (P ++ S)).Perm (P ++ S) ∧
      ((List.range' i S.length).foldl (fun d i => insertionSort.inner less 0 i d)
          (P ++ S)).Pairwise (fun a b => less b a = false) ∧
      (∀ p : α → Bool, (∀ a b, less a b = true → ¬ (p a = true ∧ p b = true)) →
        ((List.range' i S.length).foldl (fun d i => insertionSort.inner less 0 i d)
          (P ++ S)).filter p = (P ++ S).filter p) := by
  intro S
  induction S with
  | nil =>
    intro P i _ hs
    simpa using hs
  | cons x S' ih =>
    intro P i hlen hs
    obtain ⟨L', heq, hperm, hs', hst⟩ := inner_spec less hsw i P x S' hlen hs
    simp only [List.length_cons, List.range'_succ, List.foldl_cons, heq]
    have hlen' : L'.length = i + 1 := by
      rw [hperm.length_eq]; simp [hlen]
    obtain ⟨h1, h2, h3⟩ := ih L' (i + 1) hlen' hs'
    have hsplit : P ++ x :: S' = (P ++ [x]) ++ S' := by simp
    refine ⟨h1.trans ?_, h2, ?_⟩
    · rw [hsplit]
      exact hperm.append_right S'
    · intro p hp
      rw [h3 p hp, hsplit, List.filter_append, List.filter_append, hst p hp]

/-- The call `insertionSort(data, 0, len(data))` sorts. -/
theorem insertionSort_spec {α : Type} (less : α → α → Bool) (hsw : StrictWeak less)
    (data : List α) :
    (insertionSort less data 0 data.length).Perm data ∧
    (insertionSort less data 0 data.length).Pairwise (fun a b => less b a = false) ∧
    (∀ p : α → Bool, (∀ a b, less a b = true → ¬ (p a = true ∧ p b = true)) →
      (insertionSort less data 0 data.length).filter p = data.filter p) := by
  unfold insertionSort
  cases data with
  | nil => simp
  | cons x S =>
    have := insertionSort_loop less hsw S [x] 1 rfl (List.pairwise_singleton _ _)
    simpa using this

theorem foldl_perm {α β : Type} (f : List α → β → List α) (hf : ∀ d b, (f d b).Perm d)
    (bs : List β) (data : List α) : (bs.foldl f data).Perm data := by
  induction bs generalizing data with
  | nil => exact List.Perm.refl _
  | cons b rest ih => exact (ih (f data b)).trans (hf data b)

theorem shellPass_perm {α : Type} (less : α → α → Bool) (data : List α) (a b : Nat) :
    (shellPass less data a b).Perm data := by
  unfold shellPass
  apply foldl_perm
  intro d i
  split
  · exact swapAt_perm d i (i - 6)
  · exact List.Perm.refl _

/-- The small-slice branch of `sort.Sort` sorts a slice of any length. -/
theorem sortSmall_spec {α : Type} (less : α → α → Bool) (hsw : StrictWeak less)
    (data : List α) :
    (sortSmall less data).Perm data ∧
    (sortSmall less data).Pairwise (fun a b => less b a = false) := by
  unfold sortSmall quickSortSmall
  split
  · have hp := shellPass_perm less data 0 data.length
    have hlen : (shellPass less data 0 data.length).length = data.length := hp.length_eq
    have := insertionSort_spec less hsw (shellPass less data 0 data.length)
    rw [hlen] at this
    exact ⟨this.1.trans hp, this.2.1⟩
  · rename_i hsmall
    refine ⟨List.Perm.refl _, ?_⟩
    match data, hsmall with
    | [], _ => exact List.Pairwise.nil
    | [x], _ => exact List.pairwise_singleton _ _
    | _ :: _ :: _, h => simp at h

/-- The small-slice branch of the library sort meets the contract of
`sort.Sort`. -/
theorem sortSmall_contract : SortContract sortSmall := by
  intro less data hsw
  exact sortSmall_spec less hsw data

/-- With at most 6 elements the shell pass has nothing to do. -/
theorem shellPass_short {α : Type} (less : α → α → Bool) (data : List α)
    (h : data.length ≤ 6) : shellPass less data 0 data.length = data := by
  unfold shellPass
  have : data.length - (0 + 6) = 0 := by omega
  rw [this]
  rfl

/-- On a slice of at most 6 elements the small-slice branch is a plain
insertion sort, which leaves mutually incomparable elements in input order. -/
theorem sortSmall_stable_short {α : Type} (less : α → α → Bool) (hsw : StrictWeak less)
    (data : List α) (h : data.length ≤ 6) (p : α → Bool)
    (hp : ∀ a b, less a b = true → ¬ (p a = true ∧ p b = true)) :
    (sortSmall less data).filter p = data.filter p := by
  unfold sortSmall quickSortSmall
  split
  · rw [shellPass_short less data h]
    exact (insertionSort_spec less hsw data).2.2 p hp
  · rfl

/-! ## proc.go: sorting -/

theorem strictWeak_key {α β : Type} [LinearOrder β] (key : α → β) :
    StrictWeak (fun a b => decide (key a < key b)) := by
  constructor
  · intro a b h
    simp only [decide_eq_true_eq] at h
    simp only [decide_eq_false_iff_not, not_lt]
    exact le_of_lt h
  · intro a b c h
    simp only [decide_eq_true_eq] at h ⊢
    rcases lt_or_le (key a) (key b) with h1 | h1
    · exact Or.inl h1
    · exact Or.inr (lt_of_le_of_lt h1 h)

theorem strictWeak_reverse {α : Type} (less : α → α → Bool) (h : StrictWeak less) :
    StrictWeak (sortReverse less) := by
  constructor
  · intro a b hab
    exact h.1 b a hab
  · intro a b c hac
    rcases h.2 c b a hac with h1 | h1
    · exact Or.inr h1
    · exact Or.inl h1

theorem strictWeak_Cpu : StrictWeak SortProcsByCpu.Less :=
  strictWeak_key (fun p : Proc => p.Cpu)

theorem strictWeak_Pid : StrictWeak SortProcsByPid.Less :=
  strictWeak_key (fun p : Proc => p.Pid)

theorem strictWeak_Mem : StrictWeak SortProcsByMem.Less :=
  strictWeak_key (fun p : Proc => p.Mem)

/-- The active list after `Sort` is what `sort.Sort` made of the active list
before, under the comparison chosen by `sortMethod` and the view. -/
theorem Sort_active (sortSort : SortFn) (ff : ℚ → String) (w : ProcWidget) :
    (ProcWidget.Sort sortSort ff w).active =
      if w.sortMethod = "c" then sortSort (sortReverse SortProcsByCpu.Less) w.active
      else if w.sortMethod = "p" then
        (if w.showGroupedProcs then sortSort (sortReverse SortProcsByPid.Less) w.active
         else sortSort SortProcsByPid.Less w.active)
      else if w.sortMethod = "m" then sortSort (sortReverse SortProcsByMem.Less) w.active
      else w.active := by
  cases h : w.showGroupedProcs <;> simp only [ProcWidget.Sort, ProcWidget.active, h] <;>
    (split_ifs <;> simp)

/-- The method `Sort` touches neither the view flag nor the list that is not shown. -/
theorem Sort_frame (sortSort : SortFn) (ff : ℚ → String) (w : ProcWidget) :
    (ProcWidget.Sort sortSort ff w).showGroupedProcs = w.showGroupedProcs ∧
    (ProcWidget.Sort sortSort ff w).sortMethod = w.sortMethod ∧
    (w.showGroupedProcs = true →
      (ProcWidget.Sort sortSort ff w).ungroupedProcs = w.ungroupedProcs) ∧
    (w.showGroupedProcs = false →
      (ProcWidget.Sort sortSort ff w).groupedProcs = w.groupedProcs) := by
  cases h : w.showGroupedProcs <;> simp [ProcWidget.Sort, h]

/-- C5: whatever order the map is iterated in, every record `g` returned by
`GroupProcs` has as `Pid` the number of input records with the command name of
`g` (at least one), as `Cpu` and `Mem` the sums of the Cpu and Mem of exactly
those input records, and an empty `FullCommand`. -/
theorem C5_group_record (procs groupList : List Proc) (g : Proc)
    (h : GroupProcs.Returns procs groupList) (hg : g ∈ groupList) :
    g.Pid = ((groupOf procs g.CommandName).length : Int) ∧
    groupOf procs g.CommandName ≠ [] ∧
    g.Cpu = ((groupOf procs g.CommandName).map (fun p => p.Cpu)).sum ∧
    g.Mem = ((groupOf procs g.CommandName).map (fun p => p.Mem)).sum ∧
    g.FullCommand = "" := by
  unfold GroupProcs.Returns at h
  have hg' : g ∈ GroupProcs procs := h.mem_iff.mp hg
  unfold GroupProcs at hg'
  obtain ⟨e, he, hsnd⟩ := List.mem_map.mp hg'
  obtain ⟨k, v⟩ := e
  simp only at hsnd
  subst hsnd
  obtain ⟨hne, hrec⟩ := table_entry procs k v he
  have hname : v.CommandName = k := by rw [hrec]; rfl
  rw [hname]
  refine ⟨?_, hne, ?_, ?_, ?_⟩ <;> rw [hrec] <;> rfl

/-- C5 on the scenario: `{a, 2.0}, {a, 3.0}, {b, 1.0}` groups to
`{a, count 2, cpu 5.0}` and `{b, count 1, cpu 1.0}`, and sorting the grouped
list by CPU puts `a` before `b`. -/
theorem C5_group_record_witness :
    GroupProcs.Returns scenarioProcs [scenarioB, scenarioA] ∧
    scenarioA ∈ [scenarioB, scenarioA] ∧
    (scenarioA.Pid = ((groupOf scenarioProcs scenarioA.CommandName).length : Int) ∧
      groupOf scenarioProcs scenarioA.CommandName ≠ [] ∧
      scenarioA.Cpu = ((groupOf scenarioProcs scenarioA.CommandName).map (fun p => p.Cpu)).sum ∧
      scenarioA.Mem = ((groupOf scenarioProcs scenarioA.CommandName).map (fun p => p.Mem)).sum ∧
      scenarioA.FullCommand = "") ∧
    GroupProcs scenarioProcs = [scenarioA, scenarioB] ∧
    (scenarioA.Pid = 2 ∧ scenarioA.Cpu = 5 ∧ scenarioB.Pid = 1 ∧ scenarioB.Cpu = 1) ∧
    (ProcWidget.Sort sortSmall plainFloat scenarioWidget).groupedProcs =
      [scenarioA, scenarioB] :=
  ⟨by decide!, by decide!,
   C5_group_record scenarioProcs [scenarioB, scenarioA] scenarioA (by decide!) (by decide!),
   by decide!, by decide!, by decide!⟩

/-- In the exact model, where every `Cpu` and `Mem` is a number: with any
`sort.Sort` that meets its contract, `ProcWidget.Sort` leaves the active list a
permutation of what it was (and the view flag untouched); the active list is
then non-increasing by Cpu for "c", non-increasing by Mem for "m", and for "p"
non-increasing by Pid (count) in the grouped view and non-decreasing by Pid in
the ungrouped view. -/
theorem Sort_orders_exact (sortSort : SortFn) (hc : SortContract sortSort)
    (ff : ℚ → String) (w : ProcWidget) :
    (ProcWidget.Sort sortSort ff w).active.Perm w.active ∧
    (ProcWidget.Sort sortSort ff w).showGroupedProcs = w.showGroupedProcs ∧
    (w.sortMethod = "c" →
      (ProcWidget.Sort sortSort ff w).active.Pairwise (fun a b => b.Cpu ≤ a.Cpu)) ∧
    (w.sortMethod = "m" →
      (ProcWidget.Sort sortSort ff w).active.Pairwise (fun a b => b.Mem ≤ a.Mem)) ∧
    (w.sortMethod = "p" → w.showGroupedProcs = true →
      (ProcWidget.Sort sortSort ff w).active.Pairwise (fun a b => b.Pid ≤ a.Pid)) ∧
    (w.sortMethod = "p" → w.showGroupedProcs = false →
      (ProcWidget.Sort sortSort ff w).active.Pairwise (fun a b => a.Pid ≤ b.Pid)) := by
  have hcpu := hc (sortReverse SortProcsByCpu.Less) w.active
    (strictWeak_reverse _ strictWeak_Cpu)
  have hmem := hc (sortReverse SortProcsByMem.Less) w.active
    (strictWeak_reverse _ strictWeak_Mem)
  have hpidr := hc (sortReverse SortProcsByPid.Less) w.active
    (strictWeak_reverse _ strictWeak_Pid)
  have hpid := hc SortProcsByPid.Less w.active strictWeak_Pid
  have hne1 : ¬ ("m" : String) = "c" := by decide
  have hne2 : ¬ ("m" : String) = "p" := by decide
  have hne3 : ¬ ("p" : String) = "c" := by decide
  refine ⟨?_, (Sort_frame sortSort ff w).1, ?_, ?_, ?_, ?_⟩
  · rw [Sort_active]
    split_ifs
    · exact hcpu.1
    · exact hpidr.1
    · exact hpid.1
    · exact hmem.1
    · exact List.Perm.refl _
  · intro hm
    rw [Sort_active, if_pos hm]
    refine hcpu.2.imp ?_
    intro a b hab
    simpa [sortReverse, SortProcsByCpu.Less] using hab
  · intro hm
    rw [Sort_active, hm, if_neg hne1, if_neg hne2, if_pos rfl]
    refine hmem.2.imp ?_
    intro a b hab
    simpa [sortReverse, SortProcsByMem.Less] using hab
  · intro hm hg
    rw [Sort_active, hm, if_neg hne3, if_pos rfl, if_pos hg]
    refine hpidr.2.imp ?_
    intro a b hab
    simpa [sortReverse, SortProcsByPid.Less] using hab
  · intro hm hg
    rw [Sort_active, hm, if_neg hne3, if_pos rfl, if_neg (by simp [hg])]
    refine hpid.2.imp ?_
    intro a b hab
    simpa [SortProcsByPid.Less] using hab

/-! ## sort.Sort: the small-slice branch looks only at the elements of the slice -/

/-- On numbers the `float64` comparisons are the comparisons of the exact model. -/
theorem Less_toIEEE (a b : Proc) :
    IEEE.SortProcsByCpu.Less a.toIEEE b.toIEEE = SortProcsByCpu.Less a b ∧
    IEEE.SortProcsByPid.Less a.toIEEE b.toIEEE = SortProcsByPid.Less a b ∧
    IEEE.SortProcsByMem.Less a.toIEEE b.toIEEE = SortProcsByMem.Less a b :=
  ⟨rfl, rfl, rfl⟩

/-- Records that tie under the sort key are not strictly ordered by any of
the comparisons `Sort` hands to `sort.Sort`. -/
theorem sameKey_incomparable (w : ProcWidget) (r : Proc) :
    (w.sortMethod = "c" → ∀ a b, sortReverse SortProcsByCpu.Less a b = true →
      ¬ (w.sameKey r a = true ∧ w.sameKey r b = true)) ∧
    (w.sortMethod = "m" → ∀ a b, sortReverse SortProcsByMem.Less a b = true →
      ¬ (w.sameKey r a = true ∧ w.sameKey r b = true)) ∧
    (w.sortMethod = "p" → ∀ a b, sortReverse SortProcsByPid.Less a b = true →
      ¬ (w.sameKey r a = true ∧ w.sameKey r b = true)) ∧
    (w.sortMethod = "p" → ∀ a b, SortProcsByPid.Less a b = true →
      ¬ (w.sameKey r a = true ∧ w.sameKey r b = true)) := by
  have hne1 : ¬ ("m" : String) = "c" := by decide
  have hne2 : ¬ ("m" : String) = "p" := by decide
  have hne3 : ¬ ("p" : String) = "c" := by decide
  refine ⟨?_, ?_, ?_, ?_⟩
  · intro hm a b hlt hkey
    simp only [sortReverse, SortProcsByCpu.Less, decide_eq_true_eq] at hlt
    simp only [ProcWidget.sameKey, hm, if_true, decide_eq_true_eq] at hkey
    rw [← hkey.1, ← hkey.2] at hlt
    exact lt_irrefl _ hlt
  · intro hm a b hlt hkey
    simp only [sortReverse, SortProcsByMem.Less, decide_eq_true_eq] at hlt
    simp only [ProcWidget.sameKey, hm, hne1, hne2, if_true, if_false,
      decide_eq_true_eq] at hkey
    rw [← hkey.1, ← hkey.2] at hlt
    exact lt_irrefl _ hlt
  · intro hm a b hlt hkey
    simp only [sortReverse, SortProcsByPid.Less, decide_eq_true_eq] at hlt
    simp only [ProcWidget.sameKey, hm, hne3, if_true, if_false, decide_eq_true_eq] at hkey
    rw [← hkey.1, ← hkey.2] at hlt
    exact lt_irrefl _ hlt
  · intro hm a b hlt hkey
    simp only [SortProcsByPid.Less, decide_eq_true_eq] at hlt
    simp only [ProcWidget.sameKey, hm, hne3, if_true, if_false, decide_eq_true_eq] at hkey
    rw [← hkey.1, ← hkey.2] at hlt
    exact lt_irrefl _ hlt

/-- C7 as stated fails: `sort.Sort` promises no stability, and the branch the
library takes for a slice of 7 elements (a shell pass with gap 6, then
insertion sort) meets the contract and reorders a tie. Sorted by CPU, the
records 100 and 101 (both CPU 1.0, in this input order) come out as 101, 100,
because the shell pass first exchanges record 100 with record 106. So it is
not the case that ties keep their input order under every `sort.Sort` that
meets the contract. -/
theorem C7_counterexample :
    (SortContract sortSmall ∧
     tiedInput.sortMethod = "c" ∧
     (tiedInput.active.map (fun p => p.Pid) = [100, 101, 102, 103, 104, 105, 106]) ∧
     ((tiedInput.active.filter (tiedInput.sameKey (procOf 100 1 0))).map (fun p => p.Pid)
       = [100, 101]) ∧
     ((ProcWidget.Sort sortSmall plainFloat tiedInput).active.map (fun p => p.Pid)
       = [106, 102, 103, 104, 105, 101, 100]) ∧
     (((ProcWidget.Sort sortSmall plainFloat tiedInput).active.filter
       (tiedInput.sameKey (procOf 100 1 0))).map (fun p => p.Pid) = [101, 100])) ∧
    ¬ (∀ sortSort : SortFn, SortContract sortSort → ∀ (w : ProcWidget) (r : Proc),
        (ProcWidget.Sort sortSort plainFloat w).active.filter (w.sameKey r) =
          w.active.filter (w.sameKey r)) :=
  ⟨⟨sortSmall_contract, by decide, by decide!, by decide!, by decide!, by decide!⟩,
   fun h => absurd (h sortSmall sortSmall_contract tiedInput (procOf 100 1 0)) (by decide!)⟩

/-- C7 (amended): `ProcWidget.Sort` is as stable as the `sort.Sort` it calls.
With any `sort.Sort` that meets its contract, the records that tie with a
record `r` under the sort key are the same records after the sort as before,
in some order. With the library's small-slice code, an active list of at most
6 records is sorted by insertion alone, and then the records that tie with
`r` keep their input order, for every key and in both directions. -/
theorem C7_ties_as_stable_as_library (sortSort : SortFn) (hc : SortContract sortSort)
    (ff : ℚ → String) (w : ProcWidget) (r : Proc) :
    ((ProcWidget.Sort sortSort ff w).active.filter (w.sameKey r)).Perm
      (w.active.filter (w.sameKey r)) ∧
    (w.active.length ≤ 6 →
      (ProcWidget.Sort sortSmall ff w).active.filter (w.sameKey r) =
        w.active.filter (w.sameKey r)) := by
  have hinc := sameKey_incomparable w r
  constructor
  · rw [Sort_active]
    split_ifs
    · exact (hc _ _ (strictWeak_reverse _ strictWeak_Cpu)).1.filter _
    · exact (hc _ _ (strictWeak_reverse _ strictWeak_Pid)).1.filter _
    · exact (hc _ _ strictWeak_Pid).1.filter _
    · exact (hc _ _ (strictWeak_reverse _ strictWeak_Mem)).1.filter _
    · exact List.Perm.refl _
  · intro hlen
    rw [Sort_active]
    split_ifs with h1 h2 h3 h4
    · exact sortSmall_stable_short _ (strictWeak_reverse _ strictWeak_Cpu) _ hlen _
        (hinc.1 h1)
    · exact sortSmall_stable_short _ (strictWeak_reverse _ strictWeak_Pid) _ hlen _
        (hinc.2.2.1 h2)
    · exact sortSmall_stable_short _ strictWeak_Pid _ hlen _ (hinc.2.2.2 h2)
    · exact sortSmall_stable_short _ (strictWeak_reverse _ strictWeak_Mem) _ hlen _
        (hinc.2.1 h4)
    · rfl

/-- C7 (amended) on three records sorted by CPU of which 100 and 101 tie:
they come out after record 102, in input order. -/
theorem C7_ties_as_stable_as_library_witness :
    SortContract sortSmall ∧
    shortTiedInput.active.length ≤ 6 ∧
    ((ProcWidget.Sort sortSmall plainFloat shortTiedInput).active.filter
        (shortTiedInput.sameKey (procOf 100 1 0)) =
      shortTiedInput.active.filter (shortTiedInput.sameKey (procOf 100 1 0))) ∧
    ((ProcWidget.Sort sortSmall plainFloat shortTiedInput).active.map (fun p => p.Pid)
      = [102, 100, 101]) :=
  ⟨sortSmall_contract, by decide,
   (C7_ties_as_stable_as_library sortSmall sortSmall_contract plainFloat shortTiedInput
      (procOf 100 1 0)).2 (by decide),
   by decide!⟩

/-! ## temp_other.go -/

theorem step_not_retained (c2f : Int → Int) (w : TempWidget) (sensor : TemperatureStat)
    (h : retained sensor = false) : TempWidget.step c2f w sensor = some w := by
  unfold retained at h
  unfold TempWidget.step
  rw [h]
  rfl

theorem step_retained (c2f : Int → Int) (w : TempWidget) (sensor : TemperatureStat)
    (h : retained sensor = true) (label : String) (hl : labelOf sensor = some label) :
    ∃ v : Int, TempWidget.step c2f w sensor = some { w with Data := mapSet w.Data label v } := by
  unfold retained at h
  unfold labelOf at hl
  unfold TempWidget.step
  rw [h]
  cases hidx : stringsIndex sensor.SensorKey.data "_input".data with
  | none => simp [hidx] at hl
  | some idx =>
    simp only [hidx, Option.map_some', Option.some.injEq] at hl
    subst hl
    by_cases hf : w.Fahrenheit = true
    · exact ⟨c2f (floatToInt sensor.Temperature), by simp [hf]⟩
    · exact ⟨floatToInt sensor.Temperature, by simp [hf]⟩

theorem update_cons (c2f : Int → Int) (w : TempWidget) (sensor : TemperatureStat)
    (rest : List TemperatureStat) (err : Bool) :
    TempWidget.update c2f w (sensor :: rest) err =
      (TempWidget.step c2f w sensor).bind (fun w' => TempWidget.update c2f w' rest err) := by
  simp only [TempWidget.update, List.foldlM_cons]
  rfl

/-- Readings that fail the test of line 21 have no effect on the outcome. -/
theorem update_filter (c2f : Int → Int) (sensors : List TemperatureStat) (err : Bool) :
    ∀ w : TempWidget, TempWidget.update c2f w sensors err =
      TempWidget.update c2f w (sensors.filter retained) err := by
  induction sensors with
  | nil => intro w; rfl
  | cons sensor rest ih =>
    intro w
    by_cases h : retained sensor = true
    · rw [List.filter_cons_of_pos h, update_cons, update_cons]
      congr 1
      funext w'
      exact ih w'
    · have h' : retained sensor = false := by simpa using h
      rw [List.filter_cons_of_neg h, update_cons, step_not_retained c2f w sensor h']
      exact ih w

/-- When every reading that passes the test of line 21 has "_input" in its
key, the update completes, and a label whose entry differs afterwards is the
label of a reading that passed the test. -/
theorem update_completes (c2f : Int → Int) (sensors : List TemperatureStat) (err : Bool) :
    ∀ w : TempWidget,
      (∀ sensor ∈ sensors, retained sensor = true →
        stringsContains sensor.SensorKey.data "_input".data = true) →
      ∃ w', TempWidget.update c2f w sensors err = some w' ∧
        ∀ label, mapGet w'.Data label ≠ mapGet w.Data label →
          ∃ sensor ∈ sensors, retained sensor = true ∧ labelOf sensor = some label := by
  induction sensors with
  | nil =>
    intro w _
    exact ⟨w, rfl, fun label h => absurd rfl h⟩
  | cons sensor rest ih =>
    intro w hkeys
    have hrest : ∀ s ∈ rest, retained s = true →
        stringsContains s.SensorKey.data "_input".data = true :=
      fun s hs => hkeys s (List.mem_cons_of_mem _ hs)
    rw [update_cons]
    by_cases h : retained sensor = true
    · have hc := hkeys sensor (List.mem_cons_self _ _) h
      unfold stringsContains at hc
      obtain ⟨idx, hidx⟩ := Option.isSome_iff_exists.mp hc
      have hl : labelOf sensor = some (String.mk (sensor.SensorKey.data.take idx)) := by
        simp [labelOf, hidx]
      obtain ⟨v, hstep⟩ := step_retained c2f w sensor h _ hl
      rw [hstep]
      obtain ⟨w', hw', hchg⟩ := ih _ hrest
      refine ⟨w', hw', ?_⟩
      intro label hne
      by_cases hlab : label = String.mk (sensor.SensorKey.data.take idx)
      · exact ⟨sensor, List.mem_cons_self _ _, h, by rw [hl, hlab]⟩
      · have hsame : mapGet (mapSet w.Data (String.mk (sensor.SensorKey.data.take idx)) v)
            label = mapGet w.Data label := mapGet_mapSet_ne _ _ _ _ hlab
        obtain ⟨s, hs, hr, hls⟩ := hchg label (by
          simp only
          rw [hsame]
          exact hne)
        exact ⟨s, List.mem_cons_of_mem _ hs, hr, hls⟩
    · have h' : retained sensor = false := by simpa using h
      rw [step_not_retained c2f w sensor h']
      obtain ⟨w', hw', hchg⟩ := ih w hrest
      refine ⟨w', hw', ?_⟩
      intro label hne
      obtain ⟨s, hs, hr, hls⟩ := hchg label hne
      exact ⟨s, List.mem_cons_of_mem _ hs, hr, hls⟩

/-- C8 as stated fails in two ways. (a) The key "input1" with temperature 40
passes the test `strings.Contains(key, "input")`, `strings.Index(key,
"_input")` is -1 and `SensorKey[:-1]` panics: the update fails. (b) The key
"temp1_input_max" does not end in "_input", yet with temperature 50 it adds
the entry temp1 -> 50. -/
theorem C8_counterexample :
    (TempWidget.update plainC2F (TempWidget.fresh false plainC2F)
        [{ SensorKey := "input1", Temperature := 40 }] false = none) ∧
    (endsInInput "temp1_input_max" = false ∧
     (TempWidget.update plainC2F (TempWidget.fresh false plainC2F)
        [{ SensorKey := "temp1_input_max", Temperature := 50 }] false).map
          (fun w => w.Data) = some [("temp1", 50)]) := by
  decide!

/-- C8 (amended): the test of the code is that the key contains "input" and
the temperature is not zero. When every reading that passes this test has
"_input" in its key, `update` completes without failing; the outcome is in
every case the same as if the readings failing the test were not in the list;
a label whose entry was added or changed is the label of a reading that
passes the test; and a single reading with temperature 0, or whose key does
not contain "input", leaves the widget as it was. -/
theorem C8_filter_by_contains (c2f : Int → Int) (w : TempWidget)
    (sensors : List TemperatureStat) (err : Bool)
    (hkeys : ∀ sensor ∈ sensors, retained sensor = true →
      stringsContains sensor.SensorKey.data "_input".data = true) :
    (∃ w', TempWidget.update c2f w sensors err = some w' ∧
      ∀ label, mapGet w'.Data label ≠ mapGet w.Data label →
        ∃ sensor ∈ sensors,
          stringsContains sensor.SensorKey.data "input".data = true ∧
          sensor.Temperature ≠ 0 ∧ labelOf sensor = some label) ∧
    TempWidget.update c2f w sensors err =
      TempWidget.update c2f w (sensors.filter retained) err ∧
    (∀ sensor : TemperatureStat,
      sensor.Temperature = 0 ∨ stringsContains sensor.SensorKey.data "input".data = false →
      TempWidget.step c2f w sensor = some w) := by
  refine ⟨?_, update_filter c2f sensors err w, ?_⟩
  · obtain ⟨w', hw', hchg⟩ := update_completes c2f sensors err w hkeys
    refine ⟨w', hw', ?_⟩
    intro label hne
    obtain ⟨s, hs, hr, hl⟩ := hchg label hne
    unfold retained at hr
    simp only [Bool.and_eq_true, bne_iff_ne, ne_eq] at hr
    exact ⟨s, hs, hr.1, hr.2, hl⟩
  · intro sensor h
    apply step_not_retained
    unfold retained
    rcases h with h | h
    · simp [h]
    · simp [h]

/-- C8 on three readings of one core: only the live input with a non-zero
temperature reaches the map. -/
theorem C8_filter_by_contains_witness :
    (∀ sensor ∈ coreReadings, retained sensor = true →
      stringsContains sensor.SensorKey.data "_input".data = true) ∧
    (TempWidget.update plainC2F (TempWidget.fresh false plainC2F) coreReadings false =
      TempWidget.update plainC2F (TempWidget.fresh false plainC2F)
        (coreReadings.filter retained) false) ∧
    ((TempWidget.update plainC2F (TempWidget.fresh false plainC2F) coreReadings false).map
      (fun w => w.Data) = some [("coretemp_core0", 45)]) :=
  ⟨by decide!,
   (C8_filter_by_contains plainC2F (TempWidget.fresh false plainC2F) coreReadings false
      (by decide!)).2.1,
   by decide!⟩

/-! ## proc_linux.go -/

theorem parseLine_long (sc : Strconv) (line : List Char) (h : 74 ≤ line.length) :
    parseLine sc line = some (lineRecord sc line) := by
  unfold parseLine slice sliceFrom lineRecord
  rw [if_pos ⟨by omega, by omega⟩, if_pos ⟨by omega, by omega⟩,
    if_pos ⟨by omega, by omega⟩, if_pos ⟨by omega, by omega⟩, if_pos (by omega)]
  rfl

theorem parseLines_long (sc : Strconv) (lines : List (List Char))
    (h : ∀ line ∈ lines, 74 ≤ line.length) :
    parseLines sc lines = some (lines.map (lineRecord sc)) := by
  induction lines with
  | nil => rfl
  | cons line rest ih =>
    unfold parseLines
    rw [parseLine_long sc line (h line (List.mem_cons_self _ _)),
      ih (fun l hl => h l (List.mem_cons_of_mem _ hl))]
    rfl

theorem SplitNewline_single (line : List Char) (h : '\n' ∉ line) :
    SplitNewline line = [line] := by
  induction line with
  | nil => rfl
  | cons c cs ih =>
    have hc : ¬ c = '\n' := fun e => h (e ▸ List.mem_cons_self _ _)
    have hcs : '\n' ∉ cs := fun e => h (List.mem_cons_of_mem _ e)
    unfold SplitNewline
    rw [if_neg hc, ih hcs]

theorem SplitNewline_append (line rest : List Char) (h : '\n' ∉ line) :
    SplitNewline (line ++ '\n' :: rest) = line :: SplitNewline rest := by
  induction line with
  | nil =>
    show SplitNewline ('\n' :: rest) = [] :: SplitNewline rest
    rw [SplitNewline, if_pos rfl]
  | cons c cs ih =>
    have hc : ¬ c = '\n' := fun e => h (e ▸ List.mem_cons_self _ _)
    have hcs : '\n' ∉ cs := fun e => h (List.mem_cons_of_mem _ e)
    show SplitNewline (c :: (cs ++ '\n' :: rest)) = (c :: cs) :: SplitNewline rest
    rw [SplitNewline, if_neg hc, ih hcs]

theorem SplitNewline_joinLines (line : List Char) (rest : List (List Char))
    (h : ∀ l ∈ line :: rest, '\n' ∉ l) :
    SplitNewline (joinLines (line :: rest)) = line :: rest := by
  induction rest generalizing line with
  | nil => exact SplitNewline_single line (h line (List.mem_cons_self _ _))
  | cons next rest ih =>
    show SplitNewline (line ++ '\n' :: joinLines (next :: rest)) = _
    rw [SplitNewline_append _ _ (h line (List.mem_cons_self _ _)),
      ih next (fun l hl => h l (List.mem_cons_of_mem _ hl))]

theorem unlines_eq_joinLines (line : List Char) (rest : List (List Char)) :
    unlines (line :: rest) = joinLines (line :: rest) ++ ['\n'] := by
  induction rest generalizing line with
  | nil => simp [unlines, joinLines]
  | cons next rest ih =>
    show line ++ '\n' :: unlines (next :: rest) = (line ++ '\n' :: joinLines (next :: rest)) ++ _
    rw [ih next]
    simp

/-- From a listing in which every line ends with a newline, the loop sees
every line but the header, and no empty line at the end. -/
theorem processStrArr_unlines (header : List Char) (lines : List (List Char))
    (h : ∀ l ∈ header :: lines, '\n' ∉ l) :
    processStrArr (unlines (header :: lines)) = lines := by
  unfold processStrArr TrimSuffixNewline
  rw [unlines_eq_joinLines, if_pos (by simp), List.dropLast_concat,
    SplitNewline_joinLines header lines h]
  rfl

/-- C9 as stated fails: a line shorter than the column spans makes the slice
`line[0:10]` (or `line[63:68]`, `line[69:74]`) panic. The listing of a header
and the 15-character line "         1 init" leaves that one line for the
loop, and the loop does not return. -/
theorem C9_counterexample :
    processStrArr shortListing = ["         1 init".data] ∧
    parseLines decimalStrconv (processStrArr shortListing) = none ∧
    GetProcesses decimalStrconv shortListing false = none := by
  decide!

/-- C9 (amended): when every line that remains after dropping the header line
and the empty line left by a final newline is at least 74 characters long, the
parsing loop returns without failing exactly one record per remaining line, in
line order, built from the fixed spans; in that record a PID, CPU or Mem field
whose trimmed text is a syntax error for `strconv` is zero, whatever the
other fields and lines hold. The remaining lines of a listing that ends each
line with a newline are all its lines but the header. -/
theorem C9_parse_long_lines (sc : Strconv) (output : List Char)
    (hlong : ∀ line ∈ processStrArr output, 74 ≤ line.length) :
    GetProcesses sc output false =
      some (some ((processStrArr output).map (lineRecord sc))) ∧
    (∀ line : List Char,
      (sc.Atoi (TrimSpace (line.take 10)) = NumResult.errSyntax →
        (lineRecord sc line).Pid = 0) ∧
      (sc.ParseFloat (TrimSpace ((line.take 68).drop 63)) = NumResult.errSyntax →
        (lineRecord sc line).Cpu = 0) ∧
      (sc.ParseFloat (TrimSpace ((line.take 74).drop 69)) = NumResult.errSyntax →
        (lineRecord sc line).Mem = 0)) ∧
    (∀ (header : List Char) (lines : List (List Char)),
      (∀ l ∈ header :: lines, '\n' ∉ l) →
      processStrArr (unlines (header :: lines)) = lines) := by
  refine ⟨?_, ?_, processStrArr_unlines⟩
  · unfold GetProcesses
    rw [parseLines_long sc _ hlong]
    rfl
  · intro line
    refine ⟨?_, ?_, ?_⟩ <;> intro h <;> simp [lineRecord, h, NumResult.value]

/-- C9 (amended) on a listing of a header, a regular line and a line whose
PID and CPU fields are not numeric: two records, the second with PID 0 and
CPU 0 and its other fields parsed. -/
theorem C9_parse_long_lines_witness :
    (∀ line ∈ processStrArr (unlines ["HEADER".data, idleLine, oddLine]),
      74 ≤ line.length) ∧
    GetProcesses decimalStrconv (unlines ["HEADER".data, idleLine, oddLine]) false =
      some (some ((processStrArr (unlines ["HEADER".data, idleLine, oddLine])).map
        (lineRecord decimalStrconv))) ∧
    GetProcesses decimalStrconv (unlines ["HEADER".data, idleLine, oddLine]) false =
      some (some
        [ { Pid := 1, CommandName := "init", FullCommand := "/sbin/init splash",
            Cpu := 3 / 10, Mem := 12 / 10 },
          { Pid := 0, CommandName := "odd", FullCommand := "odd --flag",
            Cpu := 0, Mem := 25 / 10 } ]) :=
  ⟨by decide,
   (C9_parse_long_lines decimalStrconv (unlines ["HEADER".data, idleLine, oddLine])
      (by decide)).1,
   by decide!⟩

theorem slice_mid (P M S : List Char) (lo hi : Nat) (h1 : P.length = lo)
    (h2 : lo + M.length = hi) : slice (P ++ (M ++ S)) lo hi = some M := by
  unfold slice
  subst h1 h2
  rw [if_pos ⟨by omega, by simp⟩, List.take_append, List.take_left' rfl,
    List.drop_left' rfl]

theorem sliceFrom_end (P S : List Char) (lo : Nat) (h1 : P.length = lo) :
    sliceFrom (P ++ S) lo = some S := by
  unfold sliceFrom
  subst h1
  rw [if_pos (by simp), List.drop_left' rfl]

/-- The spans of the parser on a line of four fields of widths 10, 50, 5 and
5, each followed by one blank: the PID and command spans are the first two
fields, the full command is the rest of the line, but the CPU and Mem spans
start one character late: each is the last four characters of its field and
the blank after it. -/
theorem layout_spans (A B C D args : List Char) (hA : A.length = 10) (hB : B.length = 50)
    (hC : C.length = 5) (hD : D.length = 5) :
    slice (A ++ ' ' :: (B ++ ' ' :: (C ++ ' ' :: (D ++ ' ' :: args)))) 0 10 = some A ∧
    slice (A ++ ' ' :: (B ++ ' ' :: (C ++ ' ' :: (D ++ ' ' :: args)))) 11 61 = some B ∧
    slice (A ++ ' ' :: (B ++ ' ' :: (C ++ ' ' :: (D ++ ' ' :: args)))) 63 68 =
      some (C.drop 1 ++ [' ']) ∧
    slice (A ++ ' ' :: (B ++ ' ' :: (C ++ ' ' :: (D ++ ' ' :: args)))) 69 74 =
      some (D.drop 1 ++ [' ']) ∧
    sliceFrom (A ++ ' ' :: (B ++ ' ' :: (C ++ ' ' :: (D ++ ' ' :: args)))) 74 = some args := by
  have hCs : C.take 1 ++ C.drop 1 = C := List.take_append_drop 1 C
  have hDs : D.take 1 ++ D.drop 1 = D := List.take_append_drop 1 D
  have hC1 : (C.take 1).length = 1 := by simp [hC]
  have hD1 : (D.take 1).length = 1 := by simp [hD]
  have hC4 : (C.drop 1).length = 4 := by simp [hC]
  have hD4 : (D.drop 1).length = 4 := by simp [hD]
  refine ⟨?_, ?_, ?_, ?_, ?_⟩
  · have := slice_mid [] A (' ' :: (B ++ ' ' :: (C ++ ' ' :: (D ++ ' ' :: args)))) 0 10
      rfl (by simp [hA])
    simpa using this
  · have := slice_mid (A ++ [' ']) B (' ' :: (C ++ ' ' :: (D ++ ' ' :: args))) 11 61
      (by simp [hA]) (by simp [hB])
    simpa using this
  · have := slice_mid (A ++ ' ' :: (B ++ ' ' :: C.take 1)) (C.drop 1 ++ [' '])
      (D ++ ' ' :: args) 63 68 (by simp [hA, hB, hC1]) (by simp [hC])
    rw [← this]
    congr 1
    simp only [List.append_assoc, List.cons_append, List.nil_append]
    rw [← List.append_assoc (C.take 1), hCs]
  · have := slice_mid (A ++ ' ' :: (B ++ ' ' :: (C ++ ' ' :: D.take 1))) (D.drop 1 ++ [' '])
      args 69 74 (by simp [hA, hB, hC, hD1]) (by simp [hD])
    rw [← this]
    congr 1
    simp only [List.append_assoc, List.cons_append, List.nil_append]
    rw [← List.append_assoc (D.take 1), hDs]
  · have := sliceFrom_end (A ++ ' ' :: (B ++ ' ' :: (C ++ ' ' :: (D ++ [' '])))) args 74
      (by simp [hA, hB, hC, hD])
    simpa using this

theorem alignRight_length (width : Nat) (text : List Char) (h : text.length ≤ width) :
    (alignRight width text).length = width := by
  simp [alignRight]
  omega

theorem alignLeft_length (width : Nat) (text : List Char) (h : text.length ≤ width) :
    (alignLeft width text).length = width := by
  simp [alignLeft]
  omega

/-- C10 (what the code does): for every line laid out as the requested
widths say (PID right-aligned in 10, command name left-aligned in 50, CPU and
Mem right-aligned in 5, one blank after each, then the full command line),
the parser returns a record; its PID, command name and full command are read
from their whole fields, but its CPU and Mem are read from the last four
characters of their fields (and the blank after them), so the first character
of a CPU or Mem text that fills its 5 characters is lost. -/
theorem C10_spans_one_late (sc : Strconv) (pid comm cpu mem args : String)
    (hpid : pid.data.length ≤ 10) (hcomm : comm.data.length ≤ 50)
    (hcpu : cpu.data.length ≤ 5) (hmem : mem.data.length ≤ 5) :
    parseLine sc (psLine pid comm cpu mem args) =
      some { Pid := (sc.Atoi (TrimSpace (alignRight 10 pid.data))).value
             CommandName := String.mk (TrimSpace (alignLeft 50 comm.data))
             FullCommand := args
             Cpu := (sc.ParseFloat
               (TrimSpace ((alignRight 5 cpu.data).drop 1 ++ [' ']))).value
             Mem := (sc.ParseFloat
               (TrimSpace ((alignRight 5 mem.data).drop 1 ++ [' ']))).value } := by
  obtain ⟨h1, h2, h3, h4, h5⟩ := layout_spans (alignRight 10 pid.data)
    (alignLeft 50 comm.data) (alignRight 5 cpu.data) (alignRight 5 mem.data) args.data
    (alignRight_length _ _ hpid) (alignLeft_length _ _ hcomm)
    (alignRight_length _ _ hcpu) (alignRight_length _ _ hmem)
  unfold parseLine psLine
  rw [h1, h2, h3, h4, h5]
  rfl

/-- C10 at the line of PID 4242, command `stress`, CPU 12800, Mem 12.5: the
text handed to `ParseFloat` for the CPU is "2800", and the record holds CPU
2800, not 12800. -/
theorem C10_spans_one_late_witness :
    ("4242".data.length ≤ 10 ∧ "stress".data.length ≤ 50 ∧ "12800".data.length ≤ 5 ∧
      "12.5".data.length ≤ 5) ∧
    parseLine decimalStrconv busyLine =
      some { Pid := (decimalStrconv.Atoi (TrimSpace (alignRight 10 "4242".data))).value
             CommandName := String.mk (TrimSpace (alignLeft 50 "stress".data))
             FullCommand := "stress --cpu 128"
             Cpu := (decimalStrconv.ParseFloat
               (TrimSpace ((alignRight 5 "12800".data).drop 1 ++ [' ']))).value
             Mem := (decimalStrconv.ParseFloat
               (TrimSpace ((alignRight 5 "12.5".data).drop 1 ++ [' ']))).value } ∧
    TrimSpace ((alignRight 5 "12800".data).drop 1 ++ [' ']) = "2800".data ∧
    (decimalStrconv.ParseFloat "12800".data).value = 12800 ∧
    parseLine decimalStrconv busyLine =
      some { Pid := 4242, CommandName := "stress", FullCommand := "stress --cpu 128",
             Cpu := 2800, Mem := 25 / 2 } :=
  ⟨by decide,
   C10_spans_one_late decimalStrconv "4242" "stress" "12800" "12.5" "stress --cpu 128"
     (by decide) (by decide) (by decide) (by decide),
   by decide, by decide!, by decide!⟩

/-! ## proc.go, proc_linux.go: the methods of the widget -/

theorem Sort_Rows (sortSort : SortFn) (ff : ℚ → String) (w : ProcWidget) :
    (ProcWidget.Sort sortSort ff w).Rows =
      FieldsToStrings ff (ProcWidget.Sort sortSort ff w).active
        (ProcWidget.Sort sortSort ff w).showGroupedProcs := by
  cases h : w.showGroupedProcs <;> simp [ProcWidget.Sort, ProcWidget.active, h]

theorem Sort_UniqueCol (sortSort : SortFn) (ff : ℚ → String) (w : ProcWidget) :
    (ProcWidget.Sort sortSort ff w).UniqueCol = w.UniqueCol := rfl

theorem Sort_Header (sortSort : SortFn) (ff : ℚ → String) (w : ProcWidget) :
    (ProcWidget.Sort sortSort ff w).Header[0]? =
        some (if w.showGroupedProcs then "Count" else "PID") ∨
    (ProcWidget.Sort sortSort ff w).Header[0]? =
        some ((if w.showGroupedProcs then "Count" else "PID") ++ DOWN) := by
  cases h : w.showGroupedProcs <;> simp [ProcWidget.Sort, h, headerAppend] <;>
    (split_ifs <;> simp)

theorem FieldsToStrings_row (ff : ℚ → String) (l : List Proc) (grouped : Bool) (i : Nat)
    (p : Proc) (h : l[i]? = some p) :
    ∃ cpu mem : String, (FieldsToStrings ff l grouped)[i]? =
      some [Itoa p.Pid, if grouped then p.CommandName else p.FullCommand, cpu, mem] := by
  refine ⟨padLeft 4 (ff p.Cpu), padLeft 4 (ff p.Mem), ?_⟩
  simp [FieldsToStrings, List.getElem?_map, h]

/-- The state after any call of `Sort` is rendered. -/
theorem Sort_Rendered (sortSort : SortFn) (ff : ℚ → String) (w : ProcWidget) :
    (ProcWidget.Sort sortSort ff w).Rendered := by
  have hg := (Sort_frame sortSort ff w).1
  refine ⟨?_, ?_, ?_⟩
  · rw [hg]; exact Sort_Header sortSort ff w
  · rw [Sort_Rows]; simp [FieldsToStrings]
  · intro i p hp
    rw [Sort_Rows]
    exact FieldsToStrings_row ff _ _ i p hp

theorem Top_Rendered (top : TopFn) (w : ProcWidget) (h : w.Rendered) :
    (ProcWidget.Top top w).Rendered := h


theorem Sort_Consistent (sortSort : SortFn) (ff : ℚ → String) (w : ProcWidget)
    (h : w.UniqueCol = (if w.showGroupedProcs then 1 else 0)) :
    (ProcWidget.Sort sortSort ff w).Consistent ff := by
  refine ⟨?_, Sort_Rows sortSort ff w⟩
  rw [Sort_UniqueCol, (Sort_frame sortSort ff w).1]
  exact h

theorem update_cases (sc : Strconv) (sortSort : SortFn) (ff : ℚ → String)
    (iterate : List Proc → List Proc) (w w' : ProcWidget) (output : List Char) (err : Bool)
    (h : ProcWidget.update sc sortSort ff iterate w output err = some w') :
    (err = true ∧ w' = w) ∨
    (err = false ∧ ∃ ungrouped grouped : List Proc,
      w' = ProcWidget.Sort sortSort ff
        { w with ungroupedProcs := ungrouped, groupedProcs := grouped }) := by
  unfold ProcWidget.update at h
  cases err with
  | true =>
    simp [GetProcesses] at h
    exact Or.inl ⟨rfl, h.symm⟩
  | false =>
    right
    refine ⟨rfl, ?_⟩
    cases hg : GetProcesses sc output false with
    | none => rw [hg] at h; simp at h
    | some r =>
      cases r with
      | none => simp [GetProcesses] at hg
      | some parsed =>
        rw [hg] at h
        simp only [Option.some.injEq] at h
        exact ⟨_, _, h.symm⟩

/-- Every state the widget reaches is consistent. -/
theorem reachable_consistent (sc : Strconv) (sortSort : SortFn) (ff : ℚ → String)
    (top : TopFn) (iterate : List Proc → List Proc) (w : ProcWidget)
    (h : ProcWidget.Reachable sc sortSort ff top iterate w) : w.Consistent ff := by
  induction h with
  | constructed cpuCount => exact ⟨rfl, rfl⟩
  | afterUpdate w w' output err _ hupd ih =>
    rcases update_cases sc sortSort ff iterate w w' output err hupd with ⟨_, h⟩ | ⟨_, u, g, h⟩
    · rw [h]; exact ih
    · rw [h]; exact Sort_Consistent sortSort ff _ ih.1
  | afterSort w _ ih => exact Sort_Consistent sortSort ff w ih.1
  | afterChangeSort w eID _ ih =>
    unfold ProcWidget.ChangeSort
    split
    · exact Sort_Consistent sortSort ff _ ih.1
    · exact ih
  | afterTab w _ ih =>
    unfold ProcWidget.Tab
    have := Sort_Consistent sortSort ff
      { w with showGroupedProcs := !w.showGroupedProcs,
               UniqueCol := if (!w.showGroupedProcs) = true then 1 else 0 } rfl
    exact this

/-- What `Sort` does to the active list under the key "p". -/
theorem Sort_by_pid (sortSort : SortFn) (hc : SortContract sortSort) (ff : ℚ → String)
    (w : ProcWidget) (hp : w.sortMethod = "p") :
    (ProcWidget.Sort sortSort ff w).active.Perm w.active ∧
    (w.showGroupedProcs = true →
      (ProcWidget.Sort sortSort ff w).active.Pairwise (fun a b => b.Pid ≤ a.Pid)) ∧
    (w.showGroupedProcs = false →
      (ProcWidget.Sort sortSort ff w).active.Pairwise (fun a b => a.Pid ≤ b.Pid)) := by
  have hpidr := hc (sortReverse SortProcsByPid.Less) w.active
    (strictWeak_reverse _ strictWeak_Pid)
  have hpid := hc SortProcsByPid.Less w.active strictWeak_Pid
  have hne : ¬ ("p" : String) = "c" := by decide
  rw [Sort_active, hp, if_neg hne, if_pos rfl]
  refine ⟨?_, ?_, ?_⟩
  · split
    · exact hpidr.1
    · exact hpid.1
  · intro hg
    rw [if_pos hg]
    refine hpidr.2.imp ?_
    intro a b hab
    simpa [sortReverse, SortProcsByPid.Less] using hab
  · intro hg
    rw [if_neg (by simp [hg])]
    refine hpid.2.imp ?_
    intro a b hab
    simpa [SortProcsByPid.Less] using hab

/-- C12 (what the code does): on an error of the external call the network
sampler and the process sampler leave the widget exactly as it was, for every
prior state and whatever came with the error; the sensor sampler only logs the
error and goes on: with a reading `coretemp_core0_input` of 45 degrees next to
the error it adds the entry coretemp_core0 -> 45 to `Data`. -/
theorem C12_error_paths :
    (∀ (f : NetFmt) (w : NetWidget) (ifs : List IOCountersStat),
      NetWidget.update f w ifs true = w) ∧
    (∀ (sc : Strconv) (sortSort : SortFn) (ff : ℚ → String)
        (iterate : List Proc → List Proc) (w : ProcWidget) (output : List Char),
      ProcWidget.update sc sortSort ff iterate w output true = some w) ∧
    (TempWidget.fresh false plainC2F).Data = [] ∧
    (TempWidget.update plainC2F (TempWidget.fresh false plainC2F)
        [{ SensorKey := "coretemp_core0_input", Temperature := 45 }] true).map
          (fun w => w.Data) = some [("coretemp_core0", 45)] := by
  refine ⟨?_, ?_, rfl, by decide!⟩
  · intro f w ifs
    simp [NetWidget.update]
  · intro sc sortSort ff iterate w output
    simp [ProcWidget.update, GetProcesses]

/-- C13: with any `sort.Sort` that meets its contract and the sort key "p", one
call of `Tab` flips the view and leaves `Rows` the rendering of the newly
active list, which is a permutation of what that list was, non-increasing by
count when the view is now grouped and non-decreasing by PID when it is now
ungrouped. -/
theorem C13_tab_resorts (sortSort : SortFn) (hc : SortContract sortSort) (ff : ℚ → String)
    (top : TopFn) (w : ProcWidget) (hp : w.sortMethod = "p") :
    (ProcWidget.Tab sortSort ff top w).showGroupedProcs = (!w.showGroupedProcs) ∧
    (ProcWidget.Tab sortSort ff top w).Rows =
      FieldsToStrings ff (ProcWidget.Tab sortSort ff top w).active
        (ProcWidget.Tab sortSort ff top w).showGroupedProcs ∧
    (ProcWidget.Tab sortSort ff top w).active.Perm
      (if w.showGroupedProcs then w.ungroupedProcs else w.groupedProcs) ∧
    ((ProcWidget.Tab sortSort ff top w).showGroupedProcs = true →
      (ProcWidget.Tab sortSort ff top w).active.Pairwise (fun a b => b.Pid ≤ a.Pid)) ∧
    ((ProcWidget.Tab sortSort ff top w).showGroupedProcs = false →
      (ProcWidget.Tab sortSort ff top w).active.Pairwise (fun a b => a.Pid ≤ b.Pid)) := by
  have hs := Sort_by_pid sortSort hc ff
    { w with showGroupedProcs := !w.showGroupedProcs,
             UniqueCol := if (!w.showGroupedProcs) = true then 1 else 0 } hp
  have hr := Sort_Rows sortSort ff
    { w with showGroupedProcs := !w.showGroupedProcs,
             UniqueCol := if (!w.showGroupedProcs) = true then 1 else 0 }
  have hf := (Sort_frame sortSort ff
    { w with showGroupedProcs := !w.showGroupedProcs,
             UniqueCol := if (!w.showGroupedProcs) = true then 1 else 0 }).1
  refine ⟨hf, hr, ?_, ?_, ?_⟩
  · refine hs.1.trans ?_
    cases h : w.showGroupedProcs <;> simp [ProcWidget.active, h]
  · intro hg
    exact hs.2.1 (hf ▸ hg)
  · intro hg
    exact hs.2.2 (hf ▸ hg)

/-- C13 on a grouped view sorted by count: after `Tab` the view is ungrouped
and the rows are those of the ungrouped records by ascending PID. -/
theorem C13_tab_resorts_witness :
    SortContract sortSmall ∧ pidSortInput.sortMethod = "p" ∧
    pidSortInput.showGroupedProcs = true ∧
    (ProcWidget.Tab sortSmall plainFloat plainTop pidSortInput).showGroupedProcs
      = (!pidSortInput.showGroupedProcs) ∧
    ((ProcWidget.Tab sortSmall plainFloat plainTop pidSortInput).active.map (fun p => p.Pid)
      = [10, 20, 30]) ∧
    ((ProcWidget.Tab sortSmall plainFloat plainTop pidSortInput).Rows.map (fun r => r.take 2)
      = [["10", "cmd --run"], ["20", "cmd --run"], ["30", "cmd --run"]]) ∧
    ((ProcWidget.Tab sortSmall plainFloat plainTop
        (ProcWidget.Tab sortSmall plainFloat plainTop pidSortInput)).active.map
          (fun p => p.Pid) = [4, 2, 1]) :=
  ⟨sortSmall_contract, by decide, by decide,
   (C13_tab_resorts sortSmall sortSmall_contract plainFloat plainTop pidSortInput
      (by decide)).1,
   by decide!, by decide!, by decide!⟩

theorem indexInt_natCast {α : Type} (s : List α) (i : Nat) : indexInt s (i : Int) = s[i]? := by
  simp [indexInt]

/-- C17: in every state the widget reaches through construction, `update`,
`Sort`, `ChangeSort` and `Tab`, with `SelectedRow` a row of `Rows`, `Kill`
does not fail; it issues `pkill` with the command name of the selected record
in the grouped view and `kill` with the decimal PID of the selected record in
the ungrouped view, and the state afterwards differs from the one before in
`SelectedItem` only, so no process list and no row changes. -/
theorem C17_kill_selected (sc : Strconv) (sortSort : SortFn) (ff : ℚ → String)
    (top : TopFn) (iterate : List Proc → List Proc) (w : ProcWidget)
    (hreach : ProcWidget.Reachable sc sortSort ff top iterate w)
    (i : Nat) (hsel : w.SelectedRow = (i : Int)) (hi : i < w.Rows.length) :
    ∃ p : Proc, w.active[i]? = some p ∧
      ProcWidget.Kill w =
        some ({ w with SelectedItem := "" },
              (if w.showGroupedProcs then "pkill" else "kill"),
              (if w.showGroupedProcs then p.CommandName else Itoa p.Pid)) ∧
      ({ w with SelectedItem := "" } : ProcWidget).groupedProcs = w.groupedProcs ∧
      ({ w with SelectedItem := "" } : ProcWidget).ungroupedProcs = w.ungroupedProcs ∧
      ({ w with SelectedItem := "" } : ProcWidget).Rows = w.Rows := by
  obtain ⟨huc, hrows⟩ := reachable_consistent sc sortSort ff top iterate w hreach
  have hlen : i < w.active.length := by
    rw [hrows] at hi
    simpa [FieldsToStrings] using hi
  refine ⟨w.active[i], List.getElem?_eq_getElem hlen, ?_, rfl, rfl, rfl⟩
  obtain ⟨cpu, mem, hrow⟩ := FieldsToStrings_row ff w.active w.showGroupedProcs i
    w.active[i] (List.getElem?_eq_getElem hlen)
  rw [← hrows] at hrow
  unfold ProcWidget.Kill
  simp only [hsel, indexInt_natCast, hrow, huc]
  cases hg : w.showGroupedProcs <;> simp [indexInt]

/-- C17 on the widget constructed from a listing of two processes: in the
grouped view `Kill` issues `pkill init`, and after `Tab`, in the ungrouped
view, it issues `kill 1`. -/
theorem C17_kill_selected_witness :
    ProcWidget.Reachable decimalStrconv sortSmall plainFloat plainTop id smallWidget ∧
    smallWidget.SelectedRow = ((0 : Nat) : Int) ∧ 0 < smallWidget.Rows.length ∧
    (∃ p : Proc, smallWidget.active[0]? = some p ∧
      ProcWidget.Kill smallWidget =
        some ({ smallWidget with SelectedItem := "" },
              (if smallWidget.showGroupedProcs then "pkill" else "kill"),
              (if smallWidget.showGroupedProcs then p.CommandName else Itoa p.Pid)) ∧
      ({ smallWidget with SelectedItem := "" } : ProcWidget).groupedProcs
        = smallWidget.groupedProcs ∧
      ({ smallWidget with SelectedItem := "" } : ProcWidget).ungroupedProcs
        = smallWidget.ungroupedProcs ∧
      ({ smallWidget with SelectedItem := "" } : ProcWidget).Rows = smallWidget.Rows) ∧
    ((ProcWidget.Kill smallWidget).map (fun r => r.2) = some ("pkill", "init")) ∧
    ((ProcWidget.Kill (ProcWidget.Tab sortSmall plainFloat plainTop smallWidget)).map
      (fun r => r.2) = some ("kill", "1")) :=
  ⟨ProcWidget.Reachable.afterUpdate (ProcWidget.fresh 1) smallWidget smallListing false
      (ProcWidget.Reachable.constructed 1) (by decide!),
   by decide!, by decide!,
   C17_kill_selected decimalStrconv sortSmall plainFloat plainTop id smallWidget
     (ProcWidget.Reachable.afterUpdate (ProcWidget.fresh 1) smallWidget smallListing false
       (ProcWidget.Reachable.constructed 1) (by decide!))
     0 (by decide!) (by decide!),
   by decide!, by decide!⟩

/-- C18: in every state the widget reaches through construction, `update`
(successful or failed), `Sort`, `ChangeSort` with any event id and `Tab`,
`UniqueCol` is 1 when the view is grouped and 0 otherwise; and the state after
`Sort`, after a `ChangeSort` that changes the key, after `Tab` and after a
successful `update` is rendered: the first header cell reads "Count" when
grouped and "PID" otherwise (followed by the sort marker when it is the sort
column), and `Rows` has one row of four cells per record of the active list,
in order, with the decimal Pid/count first and then the command name when
grouped and the full command otherwise. -/
theorem C18_table_invariant (sc : Strconv) (sortSort : SortFn) (ff : ℚ → String)
    (top : TopFn) (iterate : List Proc → List Proc) (w : ProcWidget)
    (hreach : ProcWidget.Reachable sc sortSort ff top iterate w) :
    (w.UniqueCol = 1 ↔ w.showGroupedProcs = true) ∧
    (w.UniqueCol = 0 ↔ w.showGroupedProcs = false) ∧
    (ProcWidget.Sort sortSort ff w).Rendered ∧
    (∀ eID : String, w.sortMethod ≠ eID →
      (ProcWidget.ChangeSort sortSort ff top w eID).Rendered) ∧
    (ProcWidget.Tab sortSort ff top w).Rendered ∧
    (∀ (output : List Char) (w' : ProcWidget),
      ProcWidget.update sc sortSort ff iterate w output false = some w' → w'.Rendered) := by
  obtain ⟨huc, _⟩ := reachable_consistent sc sortSort ff top iterate w hreach
  refine ⟨?_, ?_, Sort_Rendered sortSort ff w, ?_, ?_, ?_⟩
  · rw [huc]; cases w.showGroupedProcs <;> simp
  · rw [huc]; cases w.showGroupedProcs <;> simp
  · intro eID hne
    unfold ProcWidget.ChangeSort
    rw [if_pos hne]
    exact Sort_Rendered sortSort ff _
  · unfold ProcWidget.Tab
    exact Top_Rendered top _ (Sort_Rendered sortSort ff _)
  · intro output w' hupd
    rcases update_cases sc sortSort ff iterate w w' output false hupd with ⟨h, _⟩ | ⟨_, u, g, h⟩
    · cases h
    · rw [h]; exact Sort_Rendered sortSort ff _

/-- C18 on the widget constructed from a listing of two processes and
switched to the ungrouped view. -/
theorem C18_table_invariant_witness :
    ProcWidget.Reachable decimalStrconv sortSmall plainFloat plainTop id
      (ProcWidget.Tab sortSmall plainFloat plainTop smallWidget) ∧
    ((ProcWidget.Tab sortSmall plainFloat plainTop smallWidget).UniqueCol = 0 ↔
      (ProcWidget.Tab sortSmall plainFloat plainTop smallWidget).showGroupedProcs = false) ∧
    (ProcWidget.Tab sortSmall plainFloat plainTop smallWidget).Header
      = ["PID", "Command", "CPU%" ++ DOWN, "Mem%"] ∧
    (ProcWidget.Tab sortSmall plainFloat plainTop smallWidget).Rows
      = [["1", "/sbin/init splash", "    ", "    "], ["0", "odd --flag", "    ", "    "]] ∧
    smallWidget.Header = ["Count", "Command", "CPU%" ++ DOWN, "Mem%"] ∧
    smallWidget.Rows = [["1", "init", "    ", "    "], ["1", "odd", "    ", "    "]] :=
  ⟨ProcWidget.Reachable.afterTab smallWidget
      (ProcWidget.Reachable.afterUpdate (ProcWidget.fresh 1) smallWidget smallListing false
        (ProcWidget.Reachable.constructed 1) (by decide!)),
   (C18_table_invariant decimalStrconv sortSmall plainFloat plainTop id
      (ProcWidget.Tab sortSmall plainFloat plainTop smallWidget)
      (ProcWidget.Reachable.afterTab smallWidget
        (ProcWidget.Reachable.afterUpdate (ProcWidget.fresh 1) smallWidget smallListing false
          (ProcWidget.Reachable.constructed 1) (by decide!)))).2.1,
   by decide!, by decide!, by decide!, by decide!⟩

/-! ## net.go: the totals -/

theorem foldl_totals_eq (interfaces : List IOCountersStat) (acc : Nat × Nat)
    (h : acc.1 < u64Mod ∧ acc.2 < u64Mod) :
    interfaces.foldl
      (fun acc i =>
        if i.Name ≠ "tun0" then (u64Add acc.1 i.BytesRecv, u64Add acc.2 i.BytesSent)
        else acc) acc =
    ((acc.1 + ((interfaces.filter (fun i => i.Name ≠ "tun0")).map
        (fun i => i.BytesRecv)).sum) % u64Mod,
     (acc.2 + ((interfaces.filter (fun i => i.Name ≠ "tun0")).map
        (fun i => i.BytesSent)).sum) % u64Mod) := by
  induction interfaces generalizing acc with
  | nil =>
    simp only [List.foldl_nil, List.filter_nil, List.map_nil, List.sum_nil, Nat.add_zero]
    rw [Nat.mod_eq_of_lt h.1, Nat.mod_eq_of_lt h.2]
  | cons i rest ih =>
    simp only [List.foldl_cons]
    rw [ih _ (sumTotals_step_lt acc i h)]
    by_cases hn : i.Name ≠ "tun0"
    · rw [if_pos hn, List.filter_cons_of_pos (by simpa using hn)]
      simp only [List.map_cons, List.sum_cons, u64Add]
      unfold u64Mod
      refine Prod.ext ?_ ?_ <;> simp only <;> omega
    · rw [if_neg hn, List.filter_cons_of_neg (by simpa using hn)]

/-- The totals of the summing loop are the sums, modulo 2^64, over the
interfaces not named `tun0`. -/
theorem sumTotals_eq (interfaces : List IOCountersStat) :
    sumTotals interfaces =
      ((((interfaces.filter (fun i => i.Name ≠ "tun0")).map
          (fun i => i.BytesRecv)).sum) % u64Mod,
       (((interfaces.filter (fun i => i.Name ≠ "tun0")).map
          (fun i => i.BytesSent)).sum) % u64Mod) := by
  unfold sumTotals
  rw [foldl_totals_eq interfaces (0, 0) (by unfold u64Mod; norm_num)]
  simp

theorem update_congr (f : NetFmt) (w : NetWidget) (ifs ifs' : List IOCountersStat) (err : Bool)
    (h : sumTotals ifs = sumTotals ifs') :
    NetWidget.update f w ifs err = NetWidget.update f w ifs' err := by
  unfold NetWidget.update
  rw [h]

/-- C15: the totals computed by `update` are the sums, in 64-bit unsigned
arithmetic, of `BytesRecv` and `BytesSent` over exactly the interfaces whose
name is not "tun0"; and for a permutation of the interface list the totals
are the same, and with them the whole widget after `update`: series, stored
previous totals and titles. -/
theorem C15_totals_order_free (ifs ifs' : List IOCountersStat) (hperm : ifs.Perm ifs') :
    sumTotals ifs =
      ((((ifs.filter (fun i => i.Name ≠ "tun0")).map (fun i => i.BytesRecv)).sum) % 2 ^ 64,
       (((ifs.filter (fun i => i.Name ≠ "tun0")).map (fun i => i.BytesSent)).sum) % 2 ^ 64) ∧
    sumTotals ifs = sumTotals ifs' ∧
    (∀ (f : NetFmt) (w : NetWidget) (err : Bool),
      NetWidget.update f w ifs err = NetWidget.update f w ifs' err) := by
  have hsum : sumTotals ifs = sumTotals ifs' := by
    rw [sumTotals_eq, sumTotals_eq]
    have hf := hperm.filter (fun i => decide (i.Name ≠ "tun0"))
    rw [(hf.map (fun i => i.BytesRecv)).sum_eq, (hf.map (fun i => i.BytesSent)).sum_eq]
  refine ⟨?_, hsum, fun f w err => update_congr f w ifs ifs' err hsum⟩
  have := sumTotals_eq ifs
  unfold u64Mod at this
  exact this

/-- C15 on three interfaces, one of them `tun0`, in two orders. -/
theorem C15_totals_order_free_witness :
    [iface "eth0" 1000 500, iface "tun0" 70 7, iface "wlan0" 5 3].Perm
      [iface "wlan0" 5 3, iface "eth0" 1000 500, iface "tun0" 70 7] ∧
    sumTotals [iface "eth0" 1000 500, iface "tun0" 70 7, iface "wlan0" 5 3] =
      sumTotals [iface "wlan0" 5 3, iface "eth0" 1000 500, iface "tun0" 70 7] ∧
    sumTotals [iface "eth0" 1000 500, iface "tun0" 70 7, iface "wlan0" 5 3] = (1005, 503) :=
  ⟨by decide,
   (C15_totals_order_free [iface "eth0" 1000 500, iface "tun0" 70 7, iface "wlan0" 5 3]
      [iface "wlan0" 5 3, iface "eth0" 1000 500, iface "tun0" 70 7] (by decide)).2.1,
   by decide⟩

/-! ## temp_other.go: labels -/

theorem step_retained_value (c2f : Int → Int) (w : TempWidget) (sensor : TemperatureStat)
    (h : retained sensor = true) (label : String) (hl : labelOf sensor = some label) :
    TempWidget.step c2f w sensor =
      some { w with Data := mapSet w.Data label (storedValue c2f w.Fahrenheit sensor) } := by
  unfold retained at h
  unfold labelOf at hl
  unfold TempWidget.step storedValue
  rw [h]
  cases hidx : stringsIndex sensor.SensorKey.data "_input".data with
  | none => simp [hidx] at hl
  | some idx =>
    simp only [hidx, Option.map_some', Option.some.injEq] at hl
    subst hl
    by_cases hf : w.Fahrenheit = true <;> simp [hf]

theorem step_cases (c2f : Int → Int) (w w1 : TempWidget) (sensor : TemperatureStat)
    (h : TempWidget.step c2f w sensor = some w1) :
    (retained sensor = false ∧ w1 = w) ∨
    (retained sensor = true ∧ ∃ label, labelOf sensor = some label ∧
      w1 = { w with Data := mapSet w.Data label (storedValue c2f w.Fahrenheit sensor) }) := by
  by_cases hr : retained sensor = true
  · right
    refine ⟨hr, ?_⟩
    cases hl : labelOf sensor with
    | none =>
      exfalso
      unfold retained at hr
      unfold labelOf at hl
      unfold TempWidget.step at h
      rw [hr] at h
      cases hidx : stringsIndex sensor.SensorKey.data "_input".data with
      | none => simp [hidx] at h
      | some idx => simp [hidx] at hl
    | some label =>
      rw [step_retained_value c2f w sensor hr label hl] at h
      exact ⟨label, rfl, (Option.some.inj h).symm⟩
  · left
    have hr' : retained sensor = false := by simpa using hr
    rw [step_not_retained c2f w sensor hr'] at h
    exact ⟨hr', (Option.some.inj h).symm⟩

theorem mapGet_mapSet_present {β : Type} (m : List (String × β)) (k k' : String) (v v0 : β)
    (h : mapGet m k' = some v0) : ∃ v', mapGet (mapSet m k v) k' = some v' := by
  by_cases hk : k' = k
  · subst hk
    exact ⟨v, mapGet_mapSet_same m k' v⟩
  · exact ⟨v0, by rw [mapGet_mapSet_ne m k k' v hk, h]⟩

/-- What a completed `update` leaves alone: the Fahrenheit flag, every label
that was present, and the value of every label no retained reading maps to. -/
theorem update_frame (c2f : Int → Int) (sensors : List TemperatureStat) (err : Bool) :
    ∀ w w' : TempWidget, TempWidget.update c2f w sensors err = some w' →
      w'.Fahrenheit = w.Fahrenheit ∧
      (∀ label v, mapGet w.Data label = some v → ∃ v', mapGet w'.Data label = some v') ∧
      (∀ label, (∀ s ∈ sensors, retained s = true → labelOf s ≠ some label) →
        mapGet w'.Data label = mapGet w.Data label) := by
  induction sensors with
  | nil =>
    intro w w' h
    have : w' = w := (Option.some.inj h).symm
    subst this
    exact ⟨rfl, fun label v hv => ⟨v, hv⟩, fun _ _ => rfl⟩
  | cons sensor rest ih =>
    intro w w' h
    rw [update_cons] at h
    cases hstep : TempWidget.step c2f w sensor with
    | none => rw [hstep] at h; simp at h
    | some w1 =>
      rw [hstep] at h
      simp only [Option.some_bind] at h
      obtain ⟨hF, hkeep, hsame⟩ := ih w1 w' h
      rcases step_cases c2f w w1 sensor hstep with ⟨_, h1⟩ | ⟨hr, label, hl, h1⟩
      · subst h1
        exact ⟨hF, hkeep, fun label hno =>
          hsame label (fun s hs => hno s (List.mem_cons_of_mem _ hs))⟩
      · subst h1
        refine ⟨hF, ?_, ?_⟩
        · intro l v hv
          obtain ⟨v1, hv1⟩ := mapGet_mapSet_present w.Data label l
            (storedValue c2f w.Fahrenheit sensor) v hv
          exact hkeep l v1 hv1
        · intro l hno
          rw [hsame l (fun s hs => hno s (List.mem_cons_of_mem _ hs))]
          have hne : l ≠ label := by
            intro e
            exact hno sensor (List.mem_cons_self _ _) hr (e ▸ hl)
          exact mapGet_mapSet_ne _ _ _ _ hne

theorem update_append (c2f : Int → Int) (w : TempWidget) (xs ys : List TemperatureStat)
    (err : Bool) :
    TempWidget.update c2f w (xs ++ ys) err =
      (TempWidget.update c2f w xs err).bind (fun w1 => TempWidget.update c2f w1 ys err) := by
  simp only [TempWidget.update, List.foldlM_append]
  rfl

theorem updateInPlace_of_update (c2f : Int → Int) (sensors : List TemperatureStat) (err : Bool) :
    ∀ w w' : TempWidget, TempWidget.update c2f w sensors err = some w' →
      TempWidget.updateInPlace c2f w sensors = w' := by
  induction sensors with
  | nil =>
    intro w w' h
    exact Option.some.inj h
  | cons sensor rest ih =>
    intro w w' h
    rw [update_cons] at h
    unfold TempWidget.updateInPlace
    cases hstep : TempWidget.step c2f w sensor with
    | none => rw [hstep] at h; simp at h
    | some w1 =>
      rw [hstep] at h
      simp only [Option.some_bind] at h
      exact ih w1 w' h

/-- What `update` leaves alone in memory, completed or not. -/
theorem updateInPlace_frame (c2f : Int → Int) (sensors : List TemperatureStat) :
    ∀ w : TempWidget,
      (∀ label v, mapGet w.Data label = some v →
        ∃ v', mapGet (TempWidget.updateInPlace c2f w sensors).Data label = some v') ∧
      (∀ label, (∀ s ∈ sensors, retained s = true → labelOf s ≠ some label) →
        mapGet (TempWidget.updateInPlace c2f w sensors).Data label = mapGet w.Data label) := by
  induction sensors with
  | nil =>
    intro w
    exact ⟨fun label v hv => ⟨v, hv⟩, fun _ _ => rfl⟩
  | cons sensor rest ih =>
    intro w
    unfold TempWidget.updateInPlace
    cases hstep : TempWidget.step c2f w sensor with
    | none => exact ⟨fun label v hv => ⟨v, hv⟩, fun _ _ => rfl⟩
    | some w1 =>
      simp only
      obtain ⟨hkeep, hsame⟩ := ih w1
      rcases step_cases c2f w w1 sensor hstep with ⟨_, h1⟩ | ⟨hr, label, hl, h1⟩
      · subst h1
        exact ⟨hkeep, fun label hno =>
          hsame label (fun s hs => hno s (List.mem_cons_of_mem _ hs))⟩
      · subst h1
        refine ⟨?_, ?_⟩
        · intro l v hv
          obtain ⟨v1, hv1⟩ := mapGet_mapSet_present w.Data label l
            (storedValue c2f w.Fahrenheit sensor) v hv
          exact hkeep l v1 hv1
        · intro l hno
          rw [hsame l (fun s hs => hno s (List.mem_cons_of_mem _ hs))]
          have hne : l ≠ label := by
            intro e
            exact hno sensor (List.mem_cons_self _ _) hr (e ▸ hl)
          exact mapGet_mapSet_ne _ _ _ _ hne

/-- The index `strings.Index` returns is the first place where the text
occurs. -/
theorem stringsIndex_first (sub : List Char) :
    ∀ (s : List Char) (i : Nat), stringsIndex s sub = some i →
      sub.isPrefixOf (s.drop i) = true ∧ ∀ j < i, sub.isPrefixOf (s.drop j) = false := by
  intro s
  induction s with
  | nil =>
    intro i h
    unfold stringsIndex at h
    by_cases hp : sub.isPrefixOf [] = true
    · rw [if_pos hp] at h
      cases h
      exact ⟨by simpa using hp, fun j hj => absurd hj (Nat.not_lt_zero j)⟩
    · rw [if_neg hp] at h
      cases h
  | cons c rest ih =>
    intro i h
    unfold stringsIndex at h
    by_cases hp : sub.isPrefixOf (c :: rest) = true
    · rw [if_pos hp] at h
      cases h
      exact ⟨by simpa using hp, fun j hj => absurd hj (Nat.not_lt_zero j)⟩
    · rw [if_neg hp] at h
      simp only at h
      cases hrest : stringsIndex rest sub with
      | none => rw [hrest] at h; cases h
      | some k =>
        rw [hrest] at h
        simp only [Option.map_some', Option.some.injEq] at h
        subst h
        obtain ⟨h1, h2⟩ := ih k hrest
        refine ⟨by simpa using h1, ?_⟩
        intro j hj
        cases j with
        | zero =>
          cases hb : sub.isPrefixOf (c :: rest) with
          | false => exact hb
          | true => exact absurd hb hp
        | succ j' => simpa using h2 j' (by omega)

/-- C16 (what the code does): the label of a retained reading is the text of
its key before the first occurrence of "_input" (`strings.Index`), also when
the key has another "_input" at its end; and the value `update` leaves under a
label is the stored value of the last retained reading of the list with that
label, whatever the label held before. -/
theorem C16_first_occurrence_last_write (c2f : Int → Int) (w w' : TempWidget)
    (before after : List TemperatureStat) (sensor : TemperatureStat) (err : Bool)
    (label : String)
    (hupd : TempWidget.update c2f w (before ++ sensor :: after) err = some w')
    (hret : retained sensor = true) (hlabel : labelOf sensor = some label)
    (hlast : ∀ r ∈ after, retained r = true → labelOf r ≠ some label) :
    (∃ idx : Nat, label = String.mk (sensor.SensorKey.data.take idx) ∧
      "_input".data.isPrefixOf (sensor.SensorKey.data.drop idx) = true ∧
      ∀ j < idx, "_input".data.isPrefixOf (sensor.SensorKey.data.drop j) = false) ∧
    mapGet w'.Data label = some (storedValue c2f w.Fahrenheit sensor) := by
  constructor
  · unfold labelOf at hlabel
    cases hidx : stringsIndex sensor.SensorKey.data "_input".data with
    | none => simp [hidx] at hlabel
    | some idx =>
      simp only [hidx, Option.map_some', Option.some.injEq] at hlabel
      exact ⟨idx, hlabel.symm, stringsIndex_first _ _ idx hidx⟩
  rw [update_append] at hupd
  cases h1 : TempWidget.update c2f w before err with
  | none => rw [h1] at hupd; simp at hupd
  | some w1 =>
    rw [h1] at hupd
    simp only [Option.some_bind] at hupd
    rw [update_cons, step_retained_value c2f w1 sensor hret label hlabel] at hupd
    simp only [Option.some_bind] at hupd
    have hF := (update_frame c2f before err w w1 h1).1
    have h3 := (update_frame c2f after err _ w' hupd).2.2 label hlast
    rw [h3]
    simp only
    rw [mapGet_mapSet_same, hF]

/-- C16 at the key "nvme_input_sensor_input" with 40 degrees: the key ends in
"_input" and without its last 6 characters it reads "nvme_input_sensor", but
the value is stored under "nvme". Of two readings with one label the last one
is stored, over a prior value of that label. -/
theorem C16_first_occurrence_last_write_witness :
    (TempWidget.update plainC2F (TempWidget.fresh false plainC2F) ([] ++ doubleInput :: [])
      false = some { TempWidget.fresh false plainC2F with Data := [("nvme", 40)] }) ∧
    retained doubleInput = true ∧ labelOf doubleInput = some "nvme" ∧
    (endsInInput doubleInput.SensorKey = true ∧
      trimmedKey doubleInput.SensorKey = "nvme_input_sensor") ∧
    mapGet ({ TempWidget.fresh false plainC2F with Data := [("nvme", 40)] } : TempWidget).Data
      "nvme" = some (storedValue plainC2F (TempWidget.fresh false plainC2F).Fahrenheit
        doubleInput) ∧
    ((TempWidget.update plainC2F warmWidget
        [{ SensorKey := "coretemp_core0_input", Temperature := 45 },
         { SensorKey := "coretemp_core0_input", Temperature := 50 }] false).map
          (fun w => w.Data) = some [("fan_hub", 30), ("coretemp_core0", 50)]) :=
  ⟨by decide!, by decide!, by decide!, by decide!,
   (C16_first_occurrence_last_write plainC2F (TempWidget.fresh false plainC2F)
      { TempWidget.fresh false plainC2F with Data := [("nvme", 40)] } [] []
      doubleInput false "nvme" (by decide!) (by decide!) (by decide!)
      (by intro r hr; cases hr)).2,
   by decide!⟩

/-- C19: in the widget as `update` leaves it, whether the loop completed or
an iteration panicked, every label present in `Data` before is present, and a
label that no retained reading of the tick maps to (its sensor is absent from
the list, reports 0, or has no "input" in its key) keeps its previous value;
when `update` completes, the widget it returns is that widget. -/
theorem C19_labels_kept (c2f : Int → Int) (w : TempWidget)
    (sensors : List TemperatureStat) (err : Bool) :
    (∀ label v, mapGet w.Data label = some v →
      ∃ v', mapGet (TempWidget.updateInPlace c2f w sensors).Data label = some v') ∧
    (∀ label, (∀ s ∈ sensors, retained s = true → labelOf s ≠ some label) →
      mapGet (TempWidget.updateInPlace c2f w sensors).Data label = mapGet w.Data label) ∧
    (∀ w' : TempWidget, TempWidget.update c2f w sensors err = some w' →
      TempWidget.updateInPlace c2f w sensors = w') :=
  ⟨(updateInPlace_frame c2f sensors w).1, (updateInPlace_frame c2f sensors w).2,
   fun w' h => updateInPlace_of_update c2f sensors err w w' h⟩

/-- C19 on a widget that shows `fan_hub` and `coretemp_core0`, updated with
the three readings of one core: `fan_hub` keeps 30 and `coretemp_core0` is
still there, now with 45. -/
theorem C19_labels_kept_witness :
    TempWidget.update plainC2F warmWidget coreReadings false =
      some { warmWidget with Data := [("fan_hub", 30), ("coretemp_core0", 45)] } ∧
    TempWidget.updateInPlace plainC2F warmWidget coreReadings =
      { warmWidget with Data := [("fan_hub", 30), ("coretemp_core0", 45)] } ∧
    (∀ s ∈ coreReadings, retained s = true → labelOf s ≠ some "fan_hub") ∧
    mapGet (TempWidget.updateInPlace plainC2F warmWidget coreReadings).Data "fan_hub" =
      mapGet warmWidget.Data "fan_hub" ∧
    mapGet warmWidget.Data "fan_hub" = some 30 :=
  ⟨by decide!,
   (C19_labels_kept plainC2F warmWidget coreReadings false).2.2 _ (by decide!),
   by decide!,
   (C19_labels_kept plainC2F warmWidget coreReadings false).2.1 "fan_hub" (by decide!),
   by decide!⟩

/-! ## The render gate -/

/-- C11 as stated fails: the three ticker loops take the shared side of the
gate (`RLock`), not the exclusive side (`Lock`), so holders of the shared side
are not kept out: from the free gate, with the network sampler at its
`update`, the process sampler's `RLock` goes through and both are at their
`update` at once, the gate held by two readers. -/
theorem C11_counterexample :
    (NetWidget.tick.head? = some (TickStep.gate GateOp.RLock) ∧
     ProcWidget.tick.head? = some (TickStep.gate GateOp.RLock) ∧
     TempWidget.tick.head? = some (TickStep.gate GateOp.RLock)) ∧
    (TickStep.gate GateOp.Lock ∉ NetWidget.tick ∧
     TickStep.gate GateOp.Lock ∉ ProcWidget.tick ∧
     TickStep.gate GateOp.Lock ∉ TempWidget.tick) ∧
    ((gateAtUpdate RWMutex.free NetWidget.tick).bind
        (fun g => gateAtUpdate g ProcWidget.tick) =
      some { readers := 2, writer := false }) := by
  decide

/-- C11 (amended): on every tick each of the three samplers acquires the
read-intent of the gate (`RLock`, the shared side) before `update` and
releases it afterwards (`RUnlock`). Whenever the `RLock` goes through, the
gate has no writer while `update` runs and `Lock` cannot go through, so a
holder of the exclusive side is kept out; another `RLock` does go through, so
other holders of the shared side are not; and after the tick the gate is as
it was before. -/
theorem C11_shared_side (g g' : RWMutex) (tick : List TickStep)
    (htick : tick = NetWidget.tick ∨ tick = ProcWidget.tick ∨ tick = TempWidget.tick)
    (hlock : g.apply GateOp.RLock = some g') :
    tick = [TickStep.gate GateOp.RLock, TickStep.update, TickStep.gate GateOp.RUnlock] ∧
    gateAtUpdate g tick = some g' ∧
    g'.writer = false ∧ g'.readers = g.readers + 1 ∧
    g'.apply GateOp.Lock = none ∧
    g'.apply GateOp.RLock = some { g' with readers := g'.readers + 1 } ∧
    gateAfter g tick = some g := by
  have ht : tick = [TickStep.gate GateOp.RLock, TickStep.update,
      TickStep.gate GateOp.RUnlock] := by
    rcases htick with h | h | h <;> rw [h] <;> rfl
  subst ht
  have hw : g.writer = false := by
    cases hgw : g.writer with
    | false => rfl
    | true => simp [RWMutex.apply, hgw] at hlock
  obtain ⟨r, gw⟩ := g
  simp only at hw
  subst hw
  have hg' : g' = { readers := r + 1, writer := false } := by
    simp [RWMutex.apply] at hlock
    exact hlock.symm
  subst hg'
  refine ⟨rfl, ?_, rfl, rfl, ?_, ?_, ?_⟩
  · simp [gateAtUpdate, RWMutex.apply]
  · simp [RWMutex.apply]
  · simp [RWMutex.apply]
  · simp [gateAfter, RWMutex.apply]

/-- C11 (amended) on the free gate and the ticker loop of the network widget. -/
theorem C11_shared_side_witness :
    RWMutex.free.apply GateOp.RLock = some { readers := 1, writer := false } ∧
    gateAtUpdate RWMutex.free NetWidget.tick = some { readers := 1, writer := false } ∧
    ({ readers := 1, writer := false } : RWMutex).apply GateOp.Lock = none ∧
    gateAfter RWMutex.free NetWidget.tick = some RWMutex.free :=
  ⟨by decide,
   (C11_shared_side RWMutex.free { readers := 1, writer := false } NetWidget.tick
      (Or.inl rfl) (by decide)).2.1,
   (C11_shared_side RWMutex.free { readers := 1, writer := false } NetWidget.tick
      (Or.inl rfl) (by decide)).2.2.2.2.1,
   (C11_shared_side RWMutex.free { readers := 1, writer := false } NetWidget.tick
      (Or.inl rfl) (by decide)).2.2.2.2.2.2⟩

/-! ## proc.go: sorting again -/

end Gotop
